import Mathlib

/-!
Verification development for the `twoost` AMQP client (`twoost/amqp.py`).

The Python source is shallowly embedded: each relevant function of
`_AMQPProtocol`, `AMQPService` and the serialization registry is translated
into an executable Lean definition over explicit state records.  Python dicts
are modelled as association lists (iteration follows insertion order; in the
publish-confirm table keys are inserted in ascending order, so list order is
ascending key order).  Fallible Python code (KeyError, failed assert,
AttributeError) is modelled with `Option`/`Except`.

The JSON codec that backs the `json` / `application/json` entries of
`MESSAGE_SERIALIZERS` lives in an external library; it is modelled from the
spec (section 4.1: content-type registry with a JSON entry satisfying the
round-trip law) as an executable encoder/decoder over a JSON value type.
-/

namespace Twoost

/-! ### JSON values

Modelled from the spec: the external `json` library used by
`MESSAGE_SERIALIZERS` (src/twoost/amqp.py lines 147-177) is not part of this
repository.  `JVal` is the type of JSON-compatible values (spec section 4.1;
floats are outside the modelled fragment), `encVal` mirrors `json.dumps` with
default separators and `parseVal` mirrors `json.loads`.
-/

inductive JVal where
  | null : JVal
  | jbool (b : Bool) : JVal
  | jint (n : Int) : JVal
  | jstr (s : List Char) : JVal
  | jarr (xs : List JVal) : JVal
  | jobj (kvs : List (List Char × JVal)) : JVal

/-- The double-quote character (written numerically to keep character
literals simple). -/
def quoteCh : Char := Char.ofNat 34

/-- The backslash character. -/
def backslashCh : Char := Char.ofNat 92

def digitCh (n : Nat) : Char := Char.ofNat (48 + n)

def hexDigitCh (n : Nat) : Char :=
  if n < 10 then Char.ofNat (48 + n) else Char.ofNat (87 + n)

def isDigitCh (c : Char) : Bool := 48 ≤ c.toNat && c.toNat ≤ 57

/-- Decimal digits of `n`, most significant first. -/
def natDigits (n : Nat) : List Char :=
  if _h : n < 10 then [digitCh n]
  else natDigits (n / 10) ++ [digitCh (n % 10)]
  termination_by n
  decreasing_by
    exact Nat.div_lt_self (by omega) (by omega)

/-- `json.dumps` rendering of an integer. -/
def encInt (n : Int) : List Char :=
  if n < 0 then '-' :: natDigits n.natAbs else natDigits n.toNat

/-- Escape one character inside a JSON string: double quote and backslash get
a backslash escape, control characters an `u00XY` escape, everything else is
emitted verbatim. -/
def escCh (c : Char) : List Char :=
  if c = quoteCh then [backslashCh, quoteCh]
  else if c = backslashCh then [backslashCh, backslashCh]
  else if c.toNat < 32 then
    [backslashCh, 'u', '0', '0', hexDigitCh (c.toNat / 16), hexDigitCh (c.toNat % 16)]
  else [c]

def escBody (s : List Char) : List Char :=
  s.foldr (fun c acc => escCh c ++ acc) []

/-- JSON string literal: body escaped and wrapped in double quotes. -/
def encString (s : List Char) : List Char :=
  quoteCh :: escBody s ++ [quoteCh]

mutual

/-- `json.dumps` with the default separators. -/
def encVal : JVal → List Char
  | .null => ['n', 'u', 'l', 'l']
  | .jbool true => ['t', 'r', 'u', 'e']
  | .jbool false => ['f', 'a', 'l', 's', 'e']
  | .jint n => encInt n
  | .jstr s => encString s
  | .jarr xs => '[' :: encArr xs ++ [']']
  | .jobj kvs => '{' :: encObj kvs ++ ['}']

/-- Array elements joined by a comma and a space. -/
def encArr : List JVal → List Char
  | [] => []
  | [x] => encVal x
  | x :: y :: xs => encVal x ++ ',' :: ' ' :: encArr (y :: xs)

/-- Object members `"key": value` joined by a comma and a space. -/
def encObj : List (List Char × JVal) → List Char
  | [] => []
  | [kv] => encString kv.1 ++ ':' :: ' ' :: encVal kv.2
  | kv :: kv2 :: kvs => encString kv.1 ++ ':' :: ' ' :: encVal kv.2 ++ ',' :: ' ' :: encObj (kv2 :: kvs)

end

/-! #### The decoder (`json.loads` on the image of the encoder) -/

/-- Skip blanks (the encoder emits a single space after each comma/colon). -/
def skipSpaces : List Char → List Char
  | ' ' :: rest => skipSpaces rest
  | s => s

/-- Consume an expected literal. -/
def dropLit : List Char → List Char → Option (List Char)
  | [], s => some s
  | _ :: _, [] => none
  | c :: cs, x :: xs => if x = c then dropLit cs xs else none

/-- Accumulate a run of decimal digits. -/
def parseNatAux : List Char → Nat → Nat × List Char
  | [], acc => (acc, [])
  | c :: rest, acc =>
    if isDigitCh c then parseNatAux rest (acc * 10 + (c.toNat - 48)) else (acc, c :: rest)

/-- Parse a non-empty run of decimal digits. -/
def parseNat : List Char → Option (Nat × List Char)
  | [] => none
  | c :: rest => if isDigitCh c then some (parseNatAux rest (c.toNat - 48)) else none

def hexVal (c : Char) : Option Nat :=
  if 48 ≤ c.toNat ∧ c.toNat ≤ 57 then some (c.toNat - 48)
  else if 97 ≤ c.toNat ∧ c.toNat ≤ 102 then some (c.toNat - 87)
  else none

/-- Parse the body of a JSON string (after the opening quote), handling the
escapes produced by `escCh`; returns the decoded body and the input after the
closing quote. -/
def parseStringBody : List Char → Option (List Char × List Char)
  | [] => none
  | c :: rest =>
    if c = quoteCh then some ([], rest)
    else if c = backslashCh then
      match rest with
      | [] => none
      | e :: rest2 =>
        if e = quoteCh then (parseStringBody rest2).map (fun p => (quoteCh :: p.1, p.2))
        else if e = backslashCh then (parseStringBody rest2).map (fun p => (backslashCh :: p.1, p.2))
        else if e = 'u' then
          match rest2 with
          | h1 :: h2 :: h3 :: h4 :: rest3 =>
            match hexVal h1, hexVal h2, hexVal h3, hexVal h4 with
            | some a, some b, some creg, some d =>
              (parseStringBody rest3).map
                (fun p => (Char.ofNat (((a * 16 + b) * 16 + creg) * 16 + d) :: p.1, p.2))
            | _, _, _, _ => none
          | _ => none
        else none
    else (parseStringBody rest).map (fun p => (c :: p.1, p.2))
  termination_by s => s.length
  decreasing_by all_goals simp [List.length] <;> omega

mutual

/-- Parse one JSON value.  `fuel` bounds the bracket-nesting depth; the
top-level entry point supplies one unit of fuel per input character, which is
always enough. -/
def parseVal (fuel : Nat) (s : List Char) : Option (JVal × List Char) :=
  match s with
  | [] => none
  | c :: rest =>
    if c = 'n' then (dropLit ['u', 'l', 'l'] rest).map (fun r => (JVal.null, r))
    else if c = 't' then (dropLit ['r', 'u', 'e'] rest).map (fun r => (JVal.jbool true, r))
    else if c = 'f' then (dropLit ['a', 'l', 's', 'e'] rest).map (fun r => (JVal.jbool false, r))
    else if c = quoteCh then (parseStringBody rest).map (fun p => (JVal.jstr p.1, p.2))
    else if c = '-' then (parseNat rest).map (fun p => (JVal.jint (-(p.1 : Int)), p.2))
    else if c = '[' then
      match fuel with
      | 0 => none
      | f + 1 => parseArrTail f rest
    else if c = '{' then
      match fuel with
      | 0 => none
      | f + 1 => parseObjTail f rest
    else if isDigitCh c then (parseNat (c :: rest)).map (fun p => (JVal.jint (p.1 : Int), p.2))
    else none
  termination_by 3 * fuel
  decreasing_by all_goals omega

/-- Parse the inside of an array (after `[`), including the closing `]`. -/
def parseArrTail (fuel : Nat) (s : List Char) : Option (JVal × List Char) :=
  if s.head? = some ']' then some (JVal.jarr [], s.tail)
  else
    match parseElems fuel s with
    | none => none
    | some (xs, r) => if r.head? = some ']' then some (JVal.jarr xs, r.tail) else none
  termination_by 3 * fuel + 2
  decreasing_by all_goals omega

/-- Parse the inside of an object (after the opening brace), including the
closing brace. -/
def parseObjTail (fuel : Nat) (s : List Char) : Option (JVal × List Char) :=
  if s.head? = some '}' then some (JVal.jobj [], s.tail)
  else
    match parseMembers fuel s with
    | none => none
    | some (kvs, r) => if r.head? = some '}' then some (JVal.jobj kvs, r.tail) else none
  termination_by 3 * fuel + 2
  decreasing_by all_goals omega

/-- Parse a non-empty comma-separated list of values. -/
def parseElems : Nat → List Char → Option (List JVal × List Char)
  | 0, _ => none
  | f + 1, s =>
    match parseVal (f + 1) s with
    | none => none
    | some (v, r) =>
      if r.head? = some ',' then
        match parseElems f (skipSpaces r.tail) with
        | none => none
        | some (xs, r2) => some (v :: xs, r2)
      else some ([v], r)
  termination_by fuel _ => 3 * fuel + 1
  decreasing_by all_goals omega

/-- Parse a non-empty comma-separated list of `"key": value` members. -/
def parseMembers : Nat → List Char → Option (List (List Char × JVal) × List Char)
  | 0, _ => none
  | f + 1, s =>
    if s.head? = some quoteCh then
      match parseStringBody s.tail with
      | none => none
      | some (k, r1) =>
        if r1.head? = some ':' then
          match parseVal (f + 1) (skipSpaces r1.tail) with
          | none => none
          | some (v, r3) =>
            if r3.head? = some ',' then
              match parseMembers f (skipSpaces r3.tail) with
              | none => none
              | some (kvs, r5) => some ((k, v) :: kvs, r5)
            else some ([(k, v)], r3)
        else none
    else none
  termination_by fuel _ => 3 * fuel + 1
  decreasing_by all_goals omega

end

/-- `json.loads`: parse a complete JSON document. -/
def loadsJson (s : List Char) : Option JVal :=
  match parseVal (s.length + 1) s with
  | some (v, []) => some v
  | _ => none

/-- `json.dumps`. -/
def dumpsJson (v : JVal) : List Char := encVal v

mutual

/-- Fuel sufficient for `parseVal` to parse `encVal v` (one unit per bracket
opening and per list element). -/
def pfuel : JVal → Nat
  | .null => 1
  | .jbool _ => 1
  | .jint _ => 1
  | .jstr _ => 1
  | .jarr xs => 1 + pfuelList xs
  | .jobj kvs => 1 + pfuelObj kvs

/-- Fuel for a list of array elements. -/
def pfuelList : List JVal → Nat
  | [] => 0
  | x :: xs => pfuel x + 1 + pfuelList xs

/-- Fuel for a list of object members. -/
def pfuelObj : List (List Char × JVal) → Nat
  | [] => 0
  | kv :: kvs => pfuel kv.2 + 1 + pfuelObj kvs

end

/-- Statement of the parse-back property for one JSON value: the encoding of
`v` followed by any remainder (not starting with a digit when `v` is an
integer, since a decimal literal is delimited only by its context) parses to
exactly `v`, for any sufficient fuel. -/
def ParsesBack (v : JVal) : Prop :=
  ∀ fuel rest, pfuel v ≤ fuel →
    (∀ n, v = JVal.jint n → ∀ c, rest.head? = some c → isDigitCh c = false) →
    parseVal fuel (encVal v ++ rest) = some (v, rest)

/-! ### Serialization registry (src/twoost/amqp.py lines 136-177)

`_NopeSerializer` is the identity; `json` dispatches to the modelled codec
above.  The registry is modelled for the environment in which the optional
`msgpack` import failed (the source guards those entries with `if msgpack:`),
so the registered entries are exactly the unconditional ones.  The `None`
key of the Python dict is unreachable through `serialize`/`deserialize`
(a falsy `content_type` short-circuits before the lookup) and is omitted. -/

inductive SerializerKind where
  | nope : SerializerKind
  | json : SerializerKind
  deriving DecidableEq

def MESSAGE_SERIALIZERS : List (String × SerializerKind) :=
  [("plain/text", .nope),
   ("application/octet-stream", .nope),
   ("json", .json),
   ("application/json", .json)]

/-- Python `str.lower`, written over the character list so that it evaluates
inside the kernel. -/
def pyLower (s : String) : String := String.mk (s.data.map Char.toLower)

/-- `serialize(data, content_type)`: falsy content type returns the data
unchanged; otherwise look the lower-cased content type up in the registry
(`none` models the `KeyError`) and apply its `dumps`. -/
def serialize (data : JVal) (content_type : Option String) : Option JVal :=
  match content_type with
  | none => some data
  | some ct =>
    if ct = "" then some data
    else
      match MESSAGE_SERIALIZERS.lookup (pyLower ct) with
      | none => none
      | some .nope => some data
      | some .json => some (.jstr (dumpsJson data))

/-- `deserialize(data, content_type)`: falsy content type returns the data
unchanged; otherwise apply the registry serializer's `loads` (for JSON the
payload must be a string; `none` models the decode error). -/
def deserialize (data : JVal) (content_type : Option String) : Option JVal :=
  match content_type with
  | none => some data
  | some ct =>
    if ct = "" then some data
    else
      match MESSAGE_SERIALIZERS.lookup (pyLower ct) with
      | none => none
      | some .nope => some data
      | some .json =>
        match data with
        | .jstr s => loadsJson s
        | _ => none

/-! ### Association lists (Python dicts)

Dicts are modelled as association lists with unique keys, iterated in
insertion order.  `aset` mirrors `d[k] = v` (replace in place, or append for
a new key), `aerase` mirrors `pop`, `alookup` mirrors `d[k]`/`d.get(k)`. -/

def alookup {α β : Type} [DecidableEq α] (k : α) : List (α × β) → Option β
  | [] => none
  | e :: rest => if e.1 = k then some e.2 else alookup k rest

def aerase {α β : Type} [DecidableEq α] (k : α) : List (α × β) → List (α × β)
  | [] => []
  | e :: rest => if e.1 = k then rest else e :: aerase k rest

def aset {α β : Type} [DecidableEq α] (k : α) (v : β) : List (α × β) → List (α × β)
  | [] => [(k, v)]
  | e :: rest => if e.1 = k then (k, v) :: rest else e :: aset k v rest

/-! ### Publisher confirms (src/twoost/amqp.py lines 244-255, 299-383)

The publish-confirm table `_published_messages` maps delivery tags to pending
Deferreds; a Deferred is identified by a number.  Tags are assigned by the
monotonically increasing `_publish_delivery_tag_counter`, so the dict's
insertion order is ascending key order. -/

/-- The `multiple` branch of `_onPublishConfirm` (src lines 313-320): iterate
over a snapshot of the table in order, popping and resolving every entry with
key at most `delivery_tag`.  Returns the remaining table and the resolutions
in iteration order; a resolution records the popped `(tag, handle)` entry and
`Ack` (callback, `true`) versus `Nack` (errback, `false`). -/
def confirmMultiple (ack : Bool) (dt : Nat) :
    List (Nat × Nat) → List (Nat × Nat) × List ((Nat × Nat) × Bool)
  | [] => ([], [])
  | e :: rest =>
    let (tbl, res) := confirmMultiple ack dt rest
    if e.1 ≤ dt then (tbl, (e, ack) :: res)
    else (e :: tbl, res)

/-- `_onPublishConfirm` (src lines 304-325).  `none` models the `KeyError`
raised by `pop` when a single confirm names an absent tag. -/
def onPublishConfirm (ack mult : Bool) (dt : Nat) (pm : List (Nat × Nat)) :
    Option (List (Nat × Nat) × List ((Nat × Nat) × Bool)) :=
  if mult then some (confirmMultiple ack dt pm)
  else
    match alookup dt pm with
    | none => none
    | some d => some (aerase dt pm, [((dt, d), ack)])

/-- State of the safe-write publish path: the per-channel tag counter
(`_publish_delivery_tag_counter`), the confirm table, and a supply of fresh
Deferred identities. -/
structure PubState where
  counter : Nat
  table : List (Nat × Nat)
  nextH : Nat
  deriving DecidableEq

/-- Events that touch the confirm table: a confirmed publish (src lines
370-378), a broker ack/nack (src lines 304-325), the safe-write channel being
closed by the broker (src lines 299-302, which reopens the channel — resetting
the counter, src line 248 — and then fails the pending messages), and
connection loss (src lines 327-350). -/
inductive PubEvent where
  | publish : PubEvent
  | confirm (ack mult : Bool) (dt : Nat) : PubEvent
  | safeChanClosed : PubEvent
  | connLost : PubEvent
  deriving DecidableEq

/-- One event step.  Returns the new state, the resolutions `(handle,
success?)` it produced, and the publish log `(tag, handle)` of handles
inserted. -/
def stepPub (st : PubState) :
    PubEvent → Option (PubState × List (Nat × Bool) × List (Nat × Nat))
  | .publish =>
    some ({ counter := st.counter + 1,
            table := st.table ++ [(st.counter + 1, st.nextH)],
            nextH := st.nextH + 1 },
          [], [(st.counter + 1, st.nextH)])
  | .confirm ack mult dt =>
    match onPublishConfirm ack mult dt st.table with
    | none => none
    | some (tbl, res) =>
      some ({ st with table := tbl }, res.map (fun r => (r.1.2, r.2)), [])
  | .safeChanClosed =>
    some ({ counter := 0, table := [], nextH := st.nextH },
          st.table.map (fun e => (e.2, false)), [])
  | .connLost =>
    some ({ st with table := [] }, st.table.map (fun e => (e.2, false)), [])

def runPub (st : PubState) :
    List PubEvent → Option (PubState × List (Nat × Bool) × List (Nat × Nat))
  | [] => some (st, [], [])
  | e :: es =>
    match stepPub st e with
    | none => none
    | some (st1, r1, p1) =>
      match runPub st1 es with
      | none => none
      | some (st2, r2, p2) => some (st2, r1 ++ r2, p1 ++ p2)

/-- State right after `_open_safewrite_channel` ran on a fresh protocol. -/
def initPubState : PubState := { counter := 0, table := [], nextH := 0 }

/-! ### Consume state and failed-message handling
(src/twoost/amqp.py lines 275-290, 327-350, 461-534, 536-581) -/

/-- Python exceptions that flow through the modelled paths. -/
inductive PyErr where
  | connectionDone : PyErr
  | userError (code : Nat) : PyErr
  deriving DecidableEq

/-- One entry of `_consume_state` as stored by `consumeQueue` (src lines
560-571).  The callback is a function object identified by a number;
`requeue_delay` is stored as `(requeue_delay or 0)` and `always_requeue` as
`(always_requeue or False)`.  `queueObjClosed` is the `closed` flag of the
entry's pika inbox. -/
structure CState where
  channel : Nat
  queueObjClosed : Bool
  no_ack : Bool
  callback : Nat
  parallel : Int
  kwargs : List (String × String)
  queue : String
  requeue_delay : Nat
  always_requeue : Bool
  deriving DecidableEq

/-- The argument record of a `consumeQueue` call re-issued by
`_on_consuming_channel_closed`. -/
structure ConsumeCall where
  queue : String
  callback : Nat
  no_ack : Bool
  consumer_tag : String
  parallel : Int
  kwargs : List (String × String)
  deriving DecidableEq

/-- Truthiness of a stored callback: Python function objects are always
truthy. -/
def pyFuncTruthy (_f : Nat) : Bool := true

/-- `_on_consuming_channel_closed` (src lines 275-290): pop the consume-state
entry and re-issue `consumeQueue` with the preserved fields.  The source
passes `no_ack=s['callback']`, i.e. the stored callback object, whose
truthiness decides the effective flag. -/
def onConsumingChannelClosed (cstate : List (String × CState)) (ct : String) :
    List (String × CState) × Option ConsumeCall :=
  match alookup ct cstate with
  | none => (cstate, none)
  | some s =>
    (aerase ct cstate,
     some { queue := s.queue, callback := s.callback,
            no_ack := pyFuncTruthy s.callback,
            consumer_tag := ct, parallel := s.parallel, kwargs := s.kwargs })

/-- Externally visible effects of `connectionLost`. -/
inductive LostAction where
  | putNone (ct : String) : LostAction
  | closeInbox (ct : String) (r : PyErr) : LostAction
  | errback (handle : Nat) (r : PyErr) : LostAction
  deriving DecidableEq

/-- The delayed-reject table `_failed_msg_rej_tasks`:
consumer_tag → (delivery_tag → (timer fire time, channel)). -/
abbrev RejTable := List (String × List (Nat × (Nat × Nat)))

/-- Protocol state touched by `connectionLost`. -/
structure ProtoState where
  ready_for_publish : Bool
  consume_state : List (String × CState)
  published_messages : List (Nat × Nat)
  failed_msg_rej_tasks : RejTable
  deriving DecidableEq

/-- `_fail_published_messages` (src lines 346-350): errback every pending
Deferred with the reason and clear the table. -/
def failPublishedMessages (pm : List (Nat × Nat)) (r : PyErr) : List LostAction :=
  pm.map (fun e => LostAction.errback e.2 r)

/-- `connectionLost` (src lines 327-344): `ready_for_publish = None` (falsy),
per-entry inbox effect guarded by `not queue_obj.closed`, consume state
cleared, pending confirms failed.  `_failed_msg_rej_tasks` is not touched by
this function. -/
def connectionLost (st : ProtoState) (r : PyErr) : ProtoState × List LostAction :=
  let inboxActs := st.consume_state.filterMap (fun e =>
    if e.2.no_ack && !e.2.queueObjClosed then some (LostAction.putNone e.1)
    else if !e.2.queueObjClosed && !e.2.no_ack then some (LostAction.closeInbox e.1 r)
    else none)
  ({ ready_for_publish := false,
     consume_state := [],
     published_messages := [],
     failed_msg_rej_tasks := st.failed_msg_rej_tasks },
   inboxActs ++ failPublishedMessages st.published_messages r)

/-- Class attribute `_AMQPProtocol.delayed_rejections_limit` (src line 196). -/
def delayed_rejections_limit : Nat := 10000

/-- Delivery metadata consulted by the failure policy. -/
structure MsgInfo where
  delivery_tag : Nat
  consumer_tag : String
  redelivered : Bool
  deriving DecidableEq

/-- AMQP methods sent (or scheduled) while processing one delivery. -/
inductive MsgAction where
  | basicAck (channel dt : Nat) : MsgAction
  | basicReject (channel dt : Nat) (requeue : Bool) : MsgAction
  | callLater (fireAt : Nat) (dt : Nat) : MsgAction
  deriving DecidableEq

/-- `_handleFailedIncomingMessage` (src lines 493-534).  `now` is the reactor
clock; a scheduled timer is identified by its fire time `now + delay`.
`none` models the `KeyError` on a missing consume-state entry and the failed
`assert delivery_tag not in fmrt`. -/
def handleFailedIncomingMessage (cstate : List (String × CState)) (fmrt : RejTable)
    (now ch : Nat) (msg : MsgInfo) : Option (RejTable × List MsgAction) :=
  let dt := msg.delivery_tag
  let ctag := msg.consumer_tag
  let rejTasksCount := ((alookup ctag fmrt).getD []).length
  if msg.redelivered || decide (rejTasksCount > delayed_rejections_limit) then
    match alookup ctag cstate with
    | none => none
    | some cs =>
      if cs.always_requeue then some (fmrt, [])
      else some (fmrt, [MsgAction.basicReject ch dt false])
  else
    match alookup ctag cstate with
    | none => none
    | some cs =>
      let delay := cs.requeue_delay
      if delay ≠ 0 then
        let m := (alookup ctag fmrt).getD []
        match alookup dt m with
        | some _ => none
        | none =>
          some (aset ctag (m ++ [(dt, (now + delay, ch))]) fmrt,
                [MsgAction.callLater (now + delay) dt])
      else some (fmrt, [MsgAction.basicReject ch dt true])

/-- The scheduled `nack_failed_message` closure (src lines 517-524): on fire,
send `basic_reject(delivery_tag, requeue=True)`, drop the entry from the
consumer's sub-table, and drop the sub-table itself when it becomes empty. -/
def nackFailedMessage (fmrt : RejTable) (ch : Nat) (ctag : String) (dt : Nat) :
    RejTable × List MsgAction :=
  let acts := [MsgAction.basicReject ch dt true]
  match alookup ctag fmrt with
  | none => (fmrt, acts)
  | some m =>
    let m2 := aerase dt m
    if m2.isEmpty then (aerase ctag fmrt, acts) else (aset ctag m2 fmrt, acts)

/-- Outcome of the user callback Deferred. -/
inductive CbOutcome where
  | success : CbOutcome
  | failure (e : PyErr) : CbOutcome
  deriving DecidableEq

/-- The `ack`/`err` callbacks attached by `_processIncomingMessage` (src lines
461-491), applied once the callback's Deferred fires: in no-ack mode nothing
is sent; success acks; a `ConnectionDone` failure is swallowed; any other
failure runs the failed-message policy. -/
def processIncomingOutcome (cstate : List (String × CState)) (fmrt : RejTable)
    (now ch : Nat) (msg : MsgInfo) (no_ack : Bool) (outcome : CbOutcome) :
    Option (RejTable × List MsgAction) :=
  if no_ack then some (fmrt, [])
  else
    match outcome with
    | .success => some (fmrt, [MsgAction.basicAck ch msg.delivery_tag])
    | .failure e =>
      if e = PyErr.connectionDone then some (fmrt, [])
      else handleFailedIncomingMessage cstate fmrt now ch msg

/-! ### publishMessage (src/twoost/amqp.py lines 352-383) -/

/-- Protocol state consulted by `publishMessage`. -/
structure PubProtoState where
  ready_for_publish : Bool
  safewrite_channel : Option Nat
  write_channel : Nat
  publish_counter : Nat
  published_messages : List (Nat × Nat)
  nextH : Nat
  deriving DecidableEq

/-- Exceptions `publishMessage` can raise. -/
inductive PublishErr where
  | notReadyForPublish : PublishErr
  | methodNotImplemented : PublishErr
  | serializeKeyError : PublishErr
  deriving DecidableEq

/-- The `pika.BasicProperties` fields set by `publishMessage`. -/
structure BasicProps where
  content_type : Option String
  expiration : Option String
  deriving DecidableEq

/-- A `basic_publish` submitted to a channel. -/
structure PublishAction where
  channel : Nat
  exchange : String
  routing_key : String
  data : JVal
  props : BasicProps

/-- Result of a successful `publishMessage` call: either a confirmed publish
whose Deferred resolves later under the given delivery tag, or a
fire-and-forget publish whose result is already resolved. -/
inductive PublishResult where
  | confirmed (st : PubProtoState) (act : PublishAction) (tag : Nat) : PublishResult
  | fireAndForget (st : PubProtoState) (act : PublishAction) : PublishResult

/-- `publishMessage` (src lines 352-383). -/
def publishMessage (st : PubProtoState) (exchange routing_key : String) (body : JVal)
    (message_ttl : Option Int) (content_type : Option String) (confirm : Bool) :
    Except PublishErr PublishResult :=
  if !st.ready_for_publish then .error .notReadyForPublish
  else
    match serialize body content_type with
    | none => .error .serializeKeyError
    | some data =>
      let p : BasicProps :=
        { content_type :=
            match content_type with
            | some ct => if ct = "" then none else some ct
            | none => none,
          expiration := message_ttl.map (fun t => toString t) }
      if confirm then
        match st.safewrite_channel with
        | some ch =>
          let tag := st.publish_counter + 1
          .ok (.confirmed
            { st with publish_counter := tag,
                      published_messages := st.published_messages ++ [(tag, st.nextH)],
                      nextH := st.nextH + 1 }
            { channel := ch, exchange := exchange, routing_key := routing_key,
              data := data, props := p } tag)
        | none => .error .methodNotImplemented
      else
        .ok (.fireAndForget st
          { channel := st.write_channel, exchange := exchange,
            routing_key := routing_key, data := data, props := p })

/-! ### makeSender (src/twoost/amqp.py lines 1140-1164) -/

/-- The publish call issued by the closure returned from `makeSender`. -/
structure SendCall where
  connection : String
  exchange : String
  routing_key : String
  body : JVal
  content_type : Option String
  confirm : Bool

/-- Default of the `content_type` parameter of `makeSender` (src line 1146). -/
def makeSenderDefaultContentType : Option String := some "json"

/-- Default of the `confirm` parameter of `makeSender` (src line 1147). -/
def makeSenderDefaultConfirm : Bool := true

/-- Python `a or b` over string-or-None values: `None` and the empty string
are falsy. -/
def pyOrStr (a b : Option String) : Option String :=
  match a with
  | some s => if s = "" then b else some s
  | none => b

/-- `routing_key_fn and routing_key_fn(data)`: `None` short-circuits,
a function object is truthy. -/
def pyFnAnd (f : Option (JVal → String)) (data : JVal) : Option String :=
  match f with
  | none => none
  | some g => some (g data)

/-- `AMQPService.makeSender` (src lines 1140-1164).  `none` models the failed
`assert routing_key is None or routing_key_fn is None`; otherwise the
returned `send` closure.  The routing key is computed by
`routing_key or (routing_key_fn and routing_key_fn(data)) or ''`. -/
def makeSender (connection exchange : String) (routing_key : Option String)
    (routing_key_fn : Option (JVal → String)) (content_type : Option String)
    (confirm : Bool) : Option (JVal → SendCall) :=
  if routing_key.isSome ∧ routing_key_fn.isSome then none
  else
    some (fun data =>
      { connection := connection, exchange := exchange,
        routing_key := (pyOrStr routing_key (pyFnAnd routing_key_fn data)).getD "",
        body := data, content_type := content_type, confirm := confirm })

/-! ### AMQPMessage.data (src/twoost/amqp.py lines 105-121) -/

/-- `pika` delivery metadata (`Basic.Deliver`). -/
structure Deliver where
  delivery_tag : Nat
  consumer_tag : String
  redelivered : Bool
  exchange : String
  routing_key : String

/-- `pika.BasicProperties` (only the field the modelled path reads). -/
structure BasicProperties where
  content_type : Option String

/-- `AMQPMessage.__init__` stores body, deliver and properties. -/
structure AMQPMessage where
  body : JVal
  deliver : Deliver
  properties : BasicProperties

/-- Failures of an attribute read. -/
inductive AttrFailure where
  | attributeError : AttrFailure
  | otherError : AttrFailure
  deriving DecidableEq

/-- The class attribute `data` is declared with `@property` and a getter
only; no setter is defined (src lines 112-115). -/
def dataPropertyHasSetter : Bool := false

/-- `self.data = v` executed inside the getter: `data` is a data descriptor
on the class (a `property`), so the assignment dispatches to
`property.__set__`, which raises `AttributeError` because `fset` is `None`;
an instance attribute can never shadow a data descriptor. -/
def setDataAttr (m : AMQPMessage) (_v : JVal) : Except AttrFailure AMQPMessage :=
  if dataPropertyHasSetter then .ok m else .error .attributeError

/-- Body of the `data` property getter (src lines 112-115):
`self.data = deserialize(self.body, self.content_type); return self.data`.
A registry `KeyError` or decode error is `otherError`; the trailing re-read
is unreachable because the assignment raises first (and, had it not, the
data descriptor would shadow the instance attribute and recurse). -/
def dataGetter (m : AMQPMessage) : Except AttrFailure JVal :=
  match deserialize m.body m.properties.content_type with
  | none => .error .otherError
  | some v =>
    match setDataAttr m v with
    | .error e => .error e
    | .ok _ => .ok v

/-- A non-`data` attribute value reachable through `__getattr__`. -/
inductive PikaAttr where
  | ofStr (s : String) : PikaAttr
  | ofNat (n : Nat) : PikaAttr
  | ofBool (b : Bool) : PikaAttr
  | ofOptStr (s : Option String) : PikaAttr
  deriving DecidableEq

/-- `AMQPMessage.__getattr__` (src lines 117-121): look the name up on
`self.properties`, then on `self.deliver`. -/
def getattrFallback (m : AMQPMessage) (name : String) : Option PikaAttr :=
  if name = "content_type" then some (.ofOptStr m.properties.content_type)
  else if name = "delivery_tag" then some (.ofNat m.deliver.delivery_tag)
  else if name = "consumer_tag" then some (.ofStr m.deliver.consumer_tag)
  else if name = "redelivered" then some (.ofBool m.deliver.redelivered)
  else if name = "exchange" then some (.ofStr m.deliver.exchange)
  else if name = "routing_key" then some (.ofStr m.deliver.routing_key)
  else none

/-- A full read of `msg.data`: `__getattribute__` finds the class property
and runs its getter; an `AttributeError` escaping the getter makes Python
fall back to `__getattr__`, which knows no `data` attribute; other errors
propagate. -/
def readDataAttr (m : AMQPMessage) : Except AttrFailure (JVal ⊕ PikaAttr) :=
  match dataGetter m with
  | .ok v => .ok (.inl v)
  | .error .attributeError =>
    match getattrFallback m "data" with
    | some a => .ok (.inr a)
    | none => .error .attributeError
  | .error e => .error e

/-! ### declareQueue argument merging (src/twoost/amqp.py lines 660-683)

Python dicts are mutable heap objects; to state the frame property the heap
is made explicit as a list of dicts addressed by index, and `dict(...)`
allocates by appending. -/

inductive ArgVal where
  | ofInt (n : Int) : ArgVal
  | ofStr (s : String) : ArgVal
  deriving DecidableEq

abbrev ArgDict := List (String × ArgVal)

abbrev ArgHeap := List ArgDict

def heapGet (h : ArgHeap) (a : Nat) : Option ArgDict := h[a]?

/-- `declareQueue`'s handling of `message_ttl` and the dead-letter arguments
(src lines 660-683): each `arguments = dict(arguments or ())` allocates a
fresh copy (here: already carrying the keys the following lines assign, since
those assignments mutate only the fresh dict).  Returns the heap and the
`arguments` reference finally passed to `queue_declare`. -/
def declareQueueArguments (h : ArgHeap) (message_ttl : Option Int)
    (dead_letter_exchange : Option String) (dead_letter_exchange_rk : Option String)
    (arguments : Option Nat) : ArgHeap × Option Nat :=
  let step1 : ArgHeap × Option Nat :=
    match message_ttl with
    | none => (h, arguments)
    | some t =>
      let base := match arguments with
        | none => []
        | some a => (heapGet h a).getD []
      (h ++ [aset "x-message-ttl" (ArgVal.ofInt t) base], some h.length)
  match dead_letter_exchange with
  | none => step1
  | some e =>
    let h1 := step1.1
    let base := match step1.2 with
      | none => []
      | some a => (heapGet h1 a).getD []
    let d1 := aset "x-dead-letter-exchange" (ArgVal.ofStr e) base
    let d2 := match dead_letter_exchange_rk with
      | some rk => if rk ≠ "" then aset "x-dead-letter-routing-key" (ArgVal.ofStr rk) d1 else d1
      | none => d1
    (h1 ++ [d2], some h1.length)

/-! ## Lemmas: characters and decimal digits -/

theorem toNat_digitCh (n : Nat) (h : n < 10) : (digitCh n).toNat = 48 + n := by
  interval_cases n <;> decide

theorem isDigitCh_digitCh (n : Nat) (h : n < 10) : isDigitCh (digitCh n) = true := by
  interval_cases n <;> decide

theorem hexVal_hexDigitCh (n : Nat) (h : n < 16) : hexVal (hexDigitCh n) = some n := by
  interval_cases n <;> decide

theorem isDigitCh_ne (c : Char) (h : isDigitCh c = true) :
    c ≠ 'n' ∧ c ≠ 't' ∧ c ≠ 'f' ∧ c ≠ quoteCh ∧ c ≠ '-' ∧ c ≠ '[' ∧ c ≠ '{' ∧
    c ≠ ' ' ∧ c ≠ ']' ∧ c ≠ '}' ∧ c ≠ ',' ∧ c ≠ backslashCh := by
  refine ⟨?_, ?_, ?_, ?_, ?_, ?_, ?_, ?_, ?_, ?_, ?_, ?_⟩ <;>
    (rintro rfl; revert h; decide)

theorem natDigits_ne_nil (n : Nat) : natDigits n ≠ [] := by
  rw [natDigits]
  split <;> simp

theorem natDigits_digits (n : Nat) : ∀ c ∈ natDigits n, isDigitCh c = true := by
  induction n using Nat.strong_induction_on with
  | _ n ih =>
    intro c hc
    rw [natDigits] at hc
    split at hc
    next h =>
      simp at hc
      subst hc
      exact isDigitCh_digitCh n h
    next h =>
      simp at hc
      rcases hc with hc | hc
      · exact ih (n / 10) (Nat.div_lt_self (by omega) (by omega)) c hc
      · subst hc
        exact isDigitCh_digitCh (n % 10) (Nat.mod_lt n (by omega))

theorem parseNatAux_stop (l : List Char) (acc : Nat)
    (h : ∀ c, l.head? = some c → isDigitCh c = false) : parseNatAux l acc = (acc, l) := by
  cases l with
  | nil => rfl
  | cons c t =>
    have hc := h c (by rfl)
    simp [parseNatAux, hc]

theorem parseNatAux_append (n : Nat) : ∀ acc rest,
    parseNatAux (natDigits n ++ rest) acc =
      parseNatAux rest (acc * 10 ^ (natDigits n).length + n) := by
  induction n using Nat.strong_induction_on with
  | _ n ih =>
    intro acc rest
    rw [natDigits]
    split
    next h =>
      simp only [List.cons_append, List.nil_append, parseNatAux,
        isDigitCh_digitCh n h, if_true, toNat_digitCh n h]
      congr 1
      simp only [List.length_cons, List.length_nil, Nat.zero_add, pow_one]
      omega
    next h =>
      rw [List.append_assoc, List.cons_append, List.nil_append,
        ih (n / 10) (Nat.div_lt_self (by omega) (by omega)) acc (digitCh (n % 10) :: rest)]
      have h10 : n % 10 < 10 := Nat.mod_lt n (by omega)
      simp only [parseNatAux, isDigitCh_digitCh (n % 10) h10, if_true,
        toNat_digitCh (n % 10) h10, List.length_append, List.length_cons,
        List.length_nil, Nat.zero_add]
      congr 1
      rw [Nat.add_sub_cancel_left, pow_succ]
      have hn : 10 * (n / 10) + n % 10 = n := Nat.div_add_mod n 10
      calc (acc * 10 ^ (natDigits (n / 10)).length + n / 10) * 10 + n % 10
          = acc * (10 ^ (natDigits (n / 10)).length * 10) + (10 * (n / 10) + n % 10) := by
            ring
        _ = acc * (10 ^ (natDigits (n / 10)).length * 10) + n := by rw [hn]

theorem parseNat_natDigits (n : Nat) (rest : List Char)
    (h : ∀ c, rest.head? = some c → isDigitCh c = false) :
    parseNat (natDigits n ++ rest) = some (n, rest) := by
  obtain ⟨c, t, hct⟩ : ∃ c t, natDigits n = c :: t := by
    cases hnd : natDigits n with
    | nil => exact absurd hnd (natDigits_ne_nil n)
    | cons c t => exact ⟨c, t, rfl⟩
  have hcd : isDigitCh c = true := natDigits_digits n c (by rw [hct]; simp)
  have key : parseNatAux (natDigits n ++ rest) 0 = (n, rest) := by
    rw [parseNatAux_append n 0 rest]
    simp only [Nat.zero_mul, Nat.zero_add]
    exact parseNatAux_stop rest n h
  rw [hct] at key ⊢
  simp only [List.cons_append, parseNat, hcd, if_true]
  simp only [List.cons_append, parseNatAux, hcd, if_true, Nat.zero_mul, Nat.zero_add] at key
  exact congrArg some key

/-! ## Lemmas: JSON strings -/

theorem escBody_cons (c : Char) (s : List Char) :
    escBody (c :: s) = escCh c ++ escBody s := by
  simp [escBody]

theorem parseStringBody_enc (s rest : List Char) :
    parseStringBody (escBody s ++ quoteCh :: rest) = some (s, rest) := by
  induction s with
  | nil =>
    show parseStringBody ([] ++ quoteCh :: rest) = some ([], rest)
    rw [List.nil_append, parseStringBody.eq_def]
    simp
  | cons c s ih =>
    have hesc : escBody (c :: s) = escCh c ++ escBody s := by simp [escBody]
    rw [hesc, List.append_assoc]
    by_cases hq : c = quoteCh
    · subst hq
      have hbq : ¬(backslashCh = quoteCh) := by decide
      simp only [escCh, List.cons_append, List.nil_append, eq_self_iff_true, if_true]
      rw [parseStringBody.eq_def]
      simp only [List.cons_append, List.nil_append, hbq, eq_self_iff_true,
        ite_true, ite_false, if_true, if_false, ih, Option.map]
    · by_cases hb : c = backslashCh
      · subst hb
        have hbq : ¬(backslashCh = quoteCh) := by decide
        simp only [escCh, List.cons_append, List.nil_append, hbq, eq_self_iff_true,
          ite_true, ite_false]
        rw [parseStringBody.eq_def]
        simp only [List.cons_append, List.nil_append, hbq, eq_self_iff_true,
          ite_true, ite_false, ih, Option.map]
      · by_cases h32 : c.toNat < 32
        · have hdiv : c.toNat / 16 < 16 := by omega
          have hmod : c.toNat % 16 < 16 := by omega
          have hbq : ¬(backslashCh = quoteCh) := by decide
          have huq : ¬('u' = quoteCh) := by decide
          have hub : ¬('u' = backslashCh) := by decide
          have h00 : hexVal '0' = some 0 := by decide
          simp only [escCh, List.cons_append, List.nil_append, hq, hb, h32,
            ite_true, ite_false, eq_self_iff_true]
          rw [parseStringBody.eq_def]
          simp only [List.cons_append, List.nil_append, hbq, huq, hub, eq_self_iff_true,
            ite_true, ite_false, h00, hexVal_hexDigitCh _ hdiv, hexVal_hexDigitCh _ hmod,
            ih, Option.map]
          have harith : ((0 * 16 + 0) * 16 + c.toNat / 16) * 16 + c.toNat % 16 = c.toNat := by
            omega
          rw [harith, Char.ofNat_toNat]
        · simp only [escCh, List.cons_append, List.nil_append, hq, hb, h32,
            ite_true, ite_false]
          rw [parseStringBody.eq_def]
          simp only [List.cons_append, List.nil_append, hq, hb, ite_true, ite_false,
            ih, Option.map]

/-! ## Lemmas: structural facts about the encoder -/

theorem skipSpaces_cons_space (t : List Char) : skipSpaces (' ' :: t) = skipSpaces t := rfl

theorem skipSpaces_of_head_ne (c : Char) (t : List Char) (h : ¬c = ' ') :
    skipSpaces (c :: t) = c :: t := by
  rw [skipSpaces.eq_def]
  split
  next heq => simp at heq; exact absurd heq.1 h
  next => rfl

theorem JVal.indOn {P : JVal → Prop}
    (hnull : P .null) (hbool : ∀ b, P (.jbool b)) (hint : ∀ n, P (.jint n))
    (hstr : ∀ s, P (.jstr s))
    (harr : ∀ xs, (∀ x ∈ xs, P x) → P (.jarr xs))
    (hobj : ∀ kvs, (∀ kv ∈ kvs, P kv.2) → P (.jobj kvs)) :
    ∀ v, P v := by
  have key : ∀ (m : Nat) (v : JVal), sizeOf v ≤ m → P v := by
    intro m
    induction m with
    | zero =>
      intro v hv
      cases v <;> simp at hv
    | succ m ih =>
      intro v _hv
      cases v with
      | null => exact hnull
      | jbool b => exact hbool b
      | jint n => exact hint n
      | jstr s => exact hstr s
      | jarr xs =>
        refine harr xs (fun x hx => ih x ?_)
        have h1 : sizeOf x < sizeOf xs := List.sizeOf_lt_of_mem hx
        have h2 : sizeOf (JVal.jarr xs) = 1 + sizeOf xs := by simp
        omega
      | jobj kvs =>
        refine hobj kvs (fun kv hkv => ih kv.2 ?_)
        have h1 : sizeOf kv < sizeOf kvs := List.sizeOf_lt_of_mem hkv
        have h2 : sizeOf kv.2 < sizeOf kv := by cases kv; simp
        have h3 : sizeOf (JVal.jobj kvs) = 1 + sizeOf kvs := by simp
        omega
  intro v
  exact key (sizeOf v) v le_rfl

theorem natDigits_head (n : Nat) :
    ∃ c t, natDigits n = c :: t ∧ isDigitCh c = true := by
  cases hnd : natDigits n with
  | nil => exact absurd hnd (natDigits_ne_nil n)
  | cons c t =>
    exact ⟨c, t, rfl, natDigits_digits n c (by rw [hnd]; simp)⟩

theorem encVal_head (v : JVal) :
    ∃ c t, encVal v = c :: t ∧ ¬c = ' ' ∧ ¬c = ']' ∧ ¬c = '}' ∧ ¬c = ',' := by
  cases v with
  | null => exact ⟨'n', _, rfl, by decide, by decide, by decide, by decide⟩
  | jbool b =>
    cases b
    · exact ⟨'f', _, rfl, by decide, by decide, by decide, by decide⟩
    · exact ⟨'t', _, rfl, by decide, by decide, by decide, by decide⟩
  | jint n =>
    show ∃ c t, encInt n = c :: t ∧ _
    rw [encInt]
    by_cases hn : n < 0
    · rw [if_pos hn]
      exact ⟨'-', _, rfl, by decide, by decide, by decide, by decide⟩
    · rw [if_neg hn]
      obtain ⟨c, t, hct, hd⟩ := natDigits_head n.toNat
      have hne := isDigitCh_ne c hd
      exact ⟨c, t, hct, hne.2.2.2.2.2.2.2.1, hne.2.2.2.2.2.2.2.2.1,
        hne.2.2.2.2.2.2.2.2.2.1, hne.2.2.2.2.2.2.2.2.2.2.1⟩
  | jstr s =>
    exact ⟨quoteCh, _, rfl, by decide, by decide, by decide, by decide⟩
  | jarr xs => exact ⟨'[', _, rfl, by decide, by decide, by decide, by decide⟩
  | jobj kvs => exact ⟨'{', _, rfl, by decide, by decide, by decide, by decide⟩

/-! ## Parse-back of the encoder and the round-trip law -/

theorem pfuelList_cons (x : JVal) (xs : List JVal) :
    pfuelList (x :: xs) = pfuel x + 1 + pfuelList xs := by
  rw [pfuelList]

theorem pfuelObj_cons (kv : List Char × JVal) (kvs : List (List Char × JVal)) :
    pfuelObj (kv :: kvs) = pfuel kv.2 + 1 + pfuelObj kvs := by
  rw [pfuelObj]

theorem encArr_cons_head (y : JVal) (ys : List JVal) :
    ∃ c t, encArr (y :: ys) = c :: t ∧ ¬c = ' ' ∧ ¬c = ']' ∧ ¬c = '}' ∧ ¬c = ',' := by
  obtain ⟨c, t, hct, h1, h2, h3, h4⟩ := encVal_head y
  cases ys with
  | nil => exact ⟨c, t, by rw [encArr, hct], h1, h2, h3, h4⟩
  | cons z zs =>
    refine ⟨c, t ++ ',' :: ' ' :: encArr (z :: zs), ?_, h1, h2, h3, h4⟩
    rw [encArr, hct]
    simp

theorem encObj_cons_head (kv : List Char × JVal) (kvs : List (List Char × JVal)) :
    ∃ t, encObj (kv :: kvs) = quoteCh :: t := by
  cases kvs with
  | nil =>
    refine ⟨escBody kv.1 ++ [quoteCh] ++ (':' :: ' ' :: encVal kv.2), ?_⟩
    rw [encObj, encString]
    simp
  | cons kv2 kvs2 =>
    refine ⟨escBody kv.1 ++ [quoteCh] ++
      (':' :: ' ' :: encVal kv.2 ++ ',' :: ' ' :: encObj (kv2 :: kvs2)), ?_⟩
    rw [encObj, encString]
    simp


theorem parseElems_enc :
    ∀ (xs : List JVal) (fuel : Nat) (rest : List Char),
      (∀ x ∈ xs, ParsesBack x) → xs ≠ [] → pfuelList xs ≤ fuel →
      rest.head? = some ']' →
      parseElems fuel (encArr xs ++ rest) = some (xs, rest) := by
  intro xs
  induction xs with
  | nil => intro fuel rest _ hne; exact absurd rfl hne
  | cons x xs ih =>
    intro fuel rest hall _ hfl hrest
    rw [pfuelList_cons] at hfl
    obtain ⟨f, rfl⟩ : ∃ f, fuel = f + 1 := ⟨fuel - 1, by omega⟩
    have hx : ParsesBack x := hall x (by simp)
    cases xs with
    | nil =>
      rw [encArr]
      have hpv : parseVal (f + 1) (encVal x ++ rest) = some (x, rest) := by
        refine hx (f + 1) rest (by omega) ?_
        intro n _ c hc
        rw [hrest] at hc
        cases hc
        decide
      rw [parseElems, hpv]
      simp only [hrest]
      have hne : ¬(some ']' = some (',' : Char)) := by decide
      simp only [hne, if_false]
    | cons y ys =>
      rw [encArr]
      rw [List.append_assoc, List.cons_append, List.cons_append]
      have hpv : parseVal (f + 1) (encVal x ++ (',' :: ' ' :: (encArr (y :: ys) ++ rest))) =
          some (x, ',' :: ' ' :: (encArr (y :: ys) ++ rest)) := by
        refine hx (f + 1) _ (by omega) ?_
        intro n _ c hc
        simp at hc
        subst hc
        decide
      rw [parseElems, hpv]
      simp only [List.head?_cons, List.tail_cons, Option.some.injEq]
      rw [if_true]
      rw [skipSpaces_cons_space]
      obtain ⟨c, t, hct, hcs, _, _, _⟩ := encArr_cons_head y ys
      rw [hct, List.cons_append, skipSpaces_of_head_ne c _ hcs, ← List.cons_append, ← hct]
      rw [ih f rest (fun z hz => hall z (by simp [hz])) (by simp) (by
        rw [pfuelList_cons] at hfl ⊢
        omega) hrest]

theorem parseMembers_enc :
    ∀ (kvs : List (List Char × JVal)) (fuel : Nat) (rest : List Char),
      (∀ kv ∈ kvs, ParsesBack kv.2) → kvs ≠ [] → pfuelObj kvs ≤ fuel →
      rest.head? = some '}' →
      parseMembers fuel (encObj kvs ++ rest) = some (kvs, rest) := by
  intro kvs
  induction kvs with
  | nil => intro fuel rest _ hne; exact absurd rfl hne
  | cons kv kvs ih =>
    obtain ⟨k, v⟩ := kv
    intro fuel rest hall _ hfl hrest
    rw [pfuelObj_cons] at hfl
    dsimp only at hfl
    obtain ⟨f, rfl⟩ : ∃ f, fuel = f + 1 := ⟨fuel - 1, by omega⟩
    have hv : ParsesBack v := hall (k, v) (by simp)
    obtain ⟨cv, tv, hctv, hcsv, _, _, _⟩ := encVal_head v
    cases kvs with
    | nil =>
      rw [encObj, encString]
      simp only [List.append_assoc, List.cons_append, List.singleton_append, List.nil_append]
      rw [parseMembers]
      simp only [List.head?_cons, Option.some.injEq, eq_self_iff_true, if_true,
        List.tail_cons]
      rw [parseStringBody_enc k (':' :: (' ' :: (encVal v ++ rest)))]
      simp only [List.head?_cons, Option.some.injEq, eq_self_iff_true, if_true,
        List.tail_cons]
      rw [skipSpaces_cons_space]
      rw [hctv, List.cons_append, skipSpaces_of_head_ne cv _ hcsv, ← List.cons_append, ← hctv]
      have hpv : parseVal (f + 1) (encVal v ++ rest) = some (v, rest) := by
        refine hv (f + 1) rest (by omega) ?_
        intro n _ c hc
        rw [hrest] at hc
        cases hc
        decide
      rw [hpv]
      simp only [hrest]
      have hne : ¬(some '}' = some (',' : Char)) := by decide
      simp only [hne, if_false]
    | cons kv2 kvs2 =>
      rw [encObj, encString]
      simp only [List.append_assoc, List.cons_append, List.singleton_append, List.nil_append]
      rw [parseMembers]
      simp only [List.head?_cons, Option.some.injEq, eq_self_iff_true, if_true,
        List.tail_cons]
      rw [parseStringBody_enc k (':' :: (' ' :: (encVal v ++ (',' :: (' ' :: (encObj (kv2 :: kvs2) ++ rest))))))]
      simp only [List.head?_cons, Option.some.injEq, eq_self_iff_true, if_true,
        List.tail_cons]
      rw [skipSpaces_cons_space]
      rw [hctv, List.cons_append, skipSpaces_of_head_ne cv _ hcsv, ← List.cons_append, ← hctv]
      have hpv : parseVal (f + 1) (encVal v ++ (',' :: (' ' :: (encObj (kv2 :: kvs2) ++ rest)))) =
          some (v, ',' :: (' ' :: (encObj (kv2 :: kvs2) ++ rest))) := by
        refine hv (f + 1) _ (by omega) ?_
        intro n _ c hc
        simp at hc
        subst hc
        decide
      rw [hpv]
      simp only [List.head?_cons, Option.some.injEq, eq_self_iff_true, if_true,
        List.tail_cons]
      rw [skipSpaces_cons_space]
      obtain ⟨t2, hct2⟩ := encObj_cons_head kv2 kvs2
      have hq : ¬(quoteCh = ' ') := by decide
      rw [hct2, List.cons_append, skipSpaces_of_head_ne quoteCh _ hq, ← List.cons_append, ← hct2]
      rw [ih f rest (fun z hz => hall z (by simp [hz])) (by simp) (by
        rw [pfuelObj_cons] at hfl ⊢
        omega) hrest]

theorem parsesBack_all : ∀ v, ParsesBack v := by
  refine JVal.indOn ?_ ?_ ?_ ?_ ?_ ?_
  · -- null
    intro fuel rest _ _
    rw [encVal]
    simp only [List.cons_append, List.nil_append]
    rw [parseVal.eq_def]
    simp [dropLit]
  · -- bool
    intro b
    intro fuel rest _ _
    cases b
    · rw [encVal]
      have h1 : ¬('f' = 'n') := by decide
      simp only [List.cons_append, List.nil_append]
      rw [parseVal.eq_def]
      simp [dropLit, h1]
    · rw [encVal]
      have h1 : ¬('t' = 'n') := by decide
      simp only [List.cons_append, List.nil_append]
      rw [parseVal.eq_def]
      simp [dropLit, h1]
  · -- int
    intro n fuel rest _ hdig
    have hd := hdig n rfl
    rw [encVal, encInt]
    by_cases hn : n < 0
    · rw [if_pos hn]
      have h1 : ¬('-' = 'n') := by decide
      have h2 : ¬('-' = 't') := by decide
      have h3 : ¬('-' = 'f') := by decide
      have h4 : ¬('-' = quoteCh) := by decide
      rw [List.cons_append, parseVal.eq_def]
      simp only [h1, h2, h3, h4, ite_false, eq_self_iff_true, ite_true]
      rw [parseNat_natDigits n.natAbs rest hd]
      have hval : -(n.natAbs : Int) = n := by omega
      simp only [Option.map_some']
      rw [hval]
    · rw [if_neg hn]
      obtain ⟨c, t, hct, hcd⟩ := natDigits_head n.toNat
      have hne := isDigitCh_ne c hcd
      rw [hct, List.cons_append, parseVal.eq_def]
      simp only [hne.1, hne.2.1, hne.2.2.1, hne.2.2.2.1, hne.2.2.2.2.1,
        hne.2.2.2.2.2.1, hne.2.2.2.2.2.2.1, ite_false, hcd, ite_true]
      rw [← List.cons_append, ← hct, parseNat_natDigits n.toNat rest hd]
      have hval : ((n.toNat : Int)) = n := by omega
      simp only [Option.map_some']
      rw [hval]
  · -- string
    intro s fuel rest _ _
    rw [encVal, encString]
    have h1 : ¬(quoteCh = 'n') := by decide
    have h2 : ¬(quoteCh = 't') := by decide
    have h3 : ¬(quoteCh = 'f') := by decide
    simp only [List.cons_append, List.append_assoc, List.singleton_append,
      List.nil_append]
    rw [parseVal.eq_def]
    simp only [h1, h2, h3, ite_false, eq_self_iff_true, ite_true]
    rw [parseStringBody_enc s rest]
    simp
  · -- array
    intro xs hxs fuel rest hf _
    rw [pfuel] at hf
    obtain ⟨f, rfl⟩ : ∃ f, fuel = f + 1 := ⟨fuel - 1, by omega⟩
    rw [encVal]
    have h1 : ¬('[' = 'n') := by decide
    have h2 : ¬('[' = 't') := by decide
    have h3 : ¬('[' = 'f') := by decide
    have h4 : ¬('[' = quoteCh) := by decide
    have h5 : ¬('[' = '-') := by decide
    simp only [List.cons_append, List.append_assoc, List.singleton_append,
      List.nil_append]
    rw [parseVal.eq_def]
    simp only [h1, h2, h3, h4, h5, ite_false, eq_self_iff_true, ite_true]
    cases xs with
    | nil =>
      rw [encArr]
      simp only [List.nil_append]
      rw [parseArrTail]
      simp
    | cons y ys =>
      rw [parseArrTail]
      obtain ⟨c, t, hct, _, hcr, _, _⟩ := encArr_cons_head y ys
      have hhd : (encArr (y :: ys) ++ (']' :: rest)).head? = some c := by
        rw [hct]; simp
      rw [hhd]
      have hcr2 : ¬(some c = some ']') := by
        intro hc
        cases hc
        exact hcr rfl
      rw [if_neg hcr2]
      rw [parseElems_enc (y :: ys) f (']' :: rest) hxs (by simp) (by omega) (by simp)]
      simp
  · -- object
    intro kvs hkvs fuel rest hf _
    rw [pfuel] at hf
    obtain ⟨f, rfl⟩ : ∃ f, fuel = f + 1 := ⟨fuel - 1, by omega⟩
    rw [encVal]
    have h1 : ¬('{' = 'n') := by decide
    have h2 : ¬('{' = 't') := by decide
    have h3 : ¬('{' = 'f') := by decide
    have h4 : ¬('{' = quoteCh) := by decide
    have h5 : ¬('{' = '-') := by decide
    have h6 : ¬('{' = '[') := by decide
    simp only [List.cons_append, List.append_assoc, List.singleton_append,
      List.nil_append]
    rw [parseVal.eq_def]
    simp only [h1, h2, h3, h4, h5, h6, ite_false, eq_self_iff_true, ite_true]
    cases kvs with
    | nil =>
      rw [encObj]
      simp only [List.nil_append]
      rw [parseObjTail]
      simp
    | cons kv2 kvs2 =>
      rw [parseObjTail]
      obtain ⟨t2, hct2⟩ := encObj_cons_head kv2 kvs2
      have hhd : (encObj (kv2 :: kvs2) ++ ('}' :: rest)).head? = some quoteCh := by
        rw [hct2]; simp
      rw [hhd]
      have hcr2 : ¬(some quoteCh = some '}') := by decide
      rw [if_neg hcr2]
      rw [parseMembers_enc (kv2 :: kvs2) f ('}' :: rest) hkvs (by simp) (by omega) (by simp)]
      simp

theorem pfuelList_le_enc (xs : List JVal) (h : ∀ x ∈ xs, pfuel x ≤ (encVal x).length) :
    pfuelList xs ≤ (encArr xs).length + 1 := by
  induction xs with
  | nil =>
    rw [pfuelList, encArr]
    simp
  | cons x xs ihl =>
    rw [pfuelList_cons]
    cases xs with
    | nil =>
      rw [encArr]
      have h1 := h x (by simp)
      rw [pfuelList]
      omega
    | cons y ys =>
      rw [encArr]
      have h1 := h x (by simp)
      have h2 := ihl (fun z hz => h z (by simp [hz]))
      simp only [List.length_append, List.length_cons]
      omega

theorem pfuelObj_le_enc (kvs : List (List Char × JVal))
    (h : ∀ kv ∈ kvs, pfuel kv.2 ≤ (encVal kv.2).length) :
    pfuelObj kvs ≤ (encObj kvs).length + 1 := by
  induction kvs with
  | nil =>
    rw [pfuelObj, encObj]
    simp
  | cons kv kvs ihl =>
    rw [pfuelObj_cons]
    cases kvs with
    | nil =>
      rw [encObj]
      have h1 := h kv (by simp)
      rw [pfuelObj]
      simp only [List.length_append, List.length_cons]
      omega
    | cons kv2 kvs2 =>
      rw [encObj]
      have h1 := h kv (by simp)
      have h2 := ihl (fun z hz => h z (by simp [hz]))
      simp only [List.length_append, List.length_cons]
      omega

theorem pfuel_le_enc : ∀ v, pfuel v ≤ (encVal v).length := by
  refine JVal.indOn ?_ ?_ ?_ ?_ ?_ ?_
  · rw [pfuel, encVal]
    simp
  · intro b
    cases b <;> (rw [pfuel, encVal]; simp)
  · intro n
    rw [pfuel, encVal, encInt]
    by_cases hn : n < 0
    · rw [if_pos hn]
      simp
    · rw [if_neg hn]
      obtain ⟨c, t, hct, _⟩ := natDigits_head n.toNat
      rw [hct]
      simp
  · intro s
    rw [pfuel, encVal, encString]
    simp
  · intro xs ih
    rw [pfuel, encVal]
    have key := pfuelList_le_enc xs ih
    simp only [List.length_cons, List.length_append]
    simp at key ⊢
    omega
  · intro kvs ih
    rw [pfuel, encVal]
    have key := pfuelObj_le_enc kvs ih
    simp only [List.length_cons, List.length_append]
    simp at key ⊢
    omega

theorem loadsJson_dumpsJson (v : JVal) : loadsJson (dumpsJson v) = some v := by
  unfold loadsJson dumpsJson
  have h := parsesBack_all v ((encVal v).length + 1) []
    (le_trans (pfuel_le_enc v) (by omega)) (by intro n _ c hc; simp at hc)
  rw [List.append_nil] at h
  rw [h]

/-- C9: round trip through the registered serializers.  For a content type
whose lowercase form is registered as the json codec, `deserialize` applied
to `serialize` of a value recovers that value. -/
theorem amqp_c9 (ct : String) (x : JVal)
    (hreg : MESSAGE_SERIALIZERS.lookup (pyLower ct) = some SerializerKind.json) :
    (serialize x (some ct)).bind (fun w => deserialize w (some ct)) = some x := by
  by_cases hct : ct = ""
  · subst hct
    exact absurd hreg (by decide)
  · simp only [serialize, deserialize, if_neg hct, hreg, Option.bind_some,
      Option.some_bind]
    exact loadsJson_dumpsJson x

theorem amqp_c9_witness :
    MESSAGE_SERIALIZERS.lookup (pyLower "json") = some SerializerKind.json ∧
    (serialize (JVal.jint 3) (some "json")).bind
      (fun w => deserialize w (some "json")) = some (JVal.jint 3) :=
  ⟨by decide, amqp_c9 "json" (JVal.jint 3) (by decide)⟩

/-! ## Association lists and the confirm listener (C1) -/

theorem alookup_mem {α β : Type} [DecidableEq α] {k : α} {v : β} :
    ∀ {l : List (α × β)}, alookup k l = some v → (k, v) ∈ l := by
  intro l
  induction l with
  | nil => intro h; simp [alookup] at h
  | cons e rest ih =>
    intro h
    rw [alookup] at h
    split at h
    next heq =>
      cases h
      next => simp_all [Prod.ext_iff]
    next => exact List.mem_cons_of_mem e (ih h)

theorem aerase_subset {α β : Type} [DecidableEq α] (k : α) :
    ∀ (l : List (α × β)) (e : α × β), e ∈ aerase k l → e ∈ l := by
  intro l
  induction l with
  | nil => intro e h; simp [aerase] at h
  | cons x rest ih =>
    intro e h
    rw [aerase] at h
    split at h
    next => exact List.mem_cons_of_mem x h
    next =>
      rcases List.mem_cons.mp h with h1 | h1
      · exact h1 ▸ List.mem_cons_self x rest
      · exact List.mem_cons_of_mem x (ih e h1)

theorem mem_aerase_of_ne {α β : Type} [DecidableEq α] (k : α) :
    ∀ (l : List (α × β)) (e : α × β), e ∈ l → ¬e.1 = k → e ∈ aerase k l := by
  intro l
  induction l with
  | nil => intro e h; simp at h
  | cons x rest ih =>
    intro e h hne
    rw [aerase]
    split
    next heq =>
      rcases List.mem_cons.mp h with h1 | h1
      · exact absurd (h1 ▸ heq) hne
      · exact h1
    next =>
      rcases List.mem_cons.mp h with h1 | h1
      · exact h1 ▸ List.mem_cons_self x _
      · exact List.mem_cons_of_mem x (ih e h1 hne)

theorem aerase_complete (dt : Nat) :
    ∀ (pm : List (Nat × Nat)), pm.Pairwise (fun a b => a.1 < b.1) →
      ∀ e ∈ aerase dt pm, e ∈ pm ∧ ¬e.1 = dt := by
  intro pm
  induction pm with
  | nil => intro _ e h; simp [aerase] at h
  | cons x rest ih =>
    intro hsort e h
    have hhead := (List.pairwise_cons.mp hsort).1
    have htail := (List.pairwise_cons.mp hsort).2
    by_cases hxk : x.1 = dt
    · rw [aerase, if_pos hxk] at h
      refine ⟨List.mem_cons_of_mem x h, ?_⟩
      have hlt := hhead e h
      omega
    · rw [aerase, if_neg hxk] at h
      rcases List.mem_cons.mp h with h1 | h1
      · rw [h1]
        exact ⟨List.mem_cons_self x rest, hxk⟩
      · obtain ⟨hm, hk⟩ := ih htail e h1
        exact ⟨List.mem_cons_of_mem x hm, hk⟩

theorem confirmMultiple_eq (ack : Bool) (dt : Nat) :
    ∀ pm : List (Nat × Nat),
      confirmMultiple ack dt pm =
        (pm.filter (fun e => decide (dt < e.1)),
         (pm.filter (fun e => decide (e.1 ≤ dt))).map (fun e => (e, ack))) := by
  intro pm
  induction pm with
  | nil => rfl
  | cons x rest ih =>
    rw [confirmMultiple, ih]
    dsimp only
    by_cases hx : x.1 ≤ dt
    · rw [if_pos hx]
      have h1 : decide (dt < x.1) = false := by simp; omega
      have h2 : decide (x.1 ≤ dt) = true := by simpa using hx
      simp [List.filter, h1, h2]
    · rw [if_neg hx]
      have h1 : decide (dt < x.1) = true := by simp; omega
      have h2 : decide (x.1 ≤ dt) = false := by simpa using hx
      simp [List.filter, h1, h2]

/-- C1: a broker confirm with `multiple=true` resolves every pending entry
whose key is at most the delivery tag, in ascending key order, and removes
exactly those entries; with `multiple=false` it resolves and removes exactly
the entry with that key (a `KeyError` if absent).  An Ack resolves
successfully, a Nack as a failure; entries with larger keys are untouched. -/
theorem amqp_c1 (ack mult : Bool) (dt : Nat) (pm : List (Nat × Nat))
    (hsort : pm.Pairwise (fun a b => a.1 < b.1)) :
    (mult = true →
      onPublishConfirm ack mult dt pm =
        some (pm.filter (fun e => decide (dt < e.1)),
              (pm.filter (fun e => decide (e.1 ≤ dt))).map (fun e => (e, ack))) ∧
      (((pm.filter (fun e => decide (e.1 ≤ dt))).map (fun e => (e, ack))).map
          (fun r => r.1.1)).Pairwise (fun a b => a < b) ∧
      (∀ e ∈ pm, dt < e.1 → e ∈ pm.filter (fun e => decide (dt < e.1)))) ∧
    (mult = false →
      (∀ h, alookup dt pm = some h →
        onPublishConfirm ack mult dt pm = some (aerase dt pm, [((dt, h), ack)]) ∧
        (dt, h) ∈ pm ∧
        (∀ e ∈ pm, ¬e.1 = dt → e ∈ aerase dt pm) ∧
        (∀ e ∈ aerase dt pm, e ∈ pm ∧ ¬e.1 = dt)) ∧
      (alookup dt pm = none → onPublishConfirm ack mult dt pm = none)) := by
  constructor
  · intro hm
    subst hm
    refine ⟨?_, ?_, ?_⟩
    · rw [onPublishConfirm, if_pos rfl, confirmMultiple_eq]
    · rw [List.map_map]
      have : ((fun r => r.1.1) ∘ (fun e => (e, ack))) = fun e : Nat × Nat => e.1 := rfl
      rw [this, List.pairwise_map]
      exact List.Pairwise.filter _ hsort
    · intro e he hlt
      rw [List.mem_filter]
      exact ⟨he, by simpa using hlt⟩
  · intro hm
    subst hm
    constructor
    · intro h hl
      refine ⟨?_, alookup_mem hl, ?_, ?_⟩
      · rw [onPublishConfirm, if_neg (by simp), hl]
      · intro e he hne
        exact mem_aerase_of_ne dt pm e he hne
      · exact aerase_complete dt pm hsort
    · intro hl
      rw [onPublishConfirm, if_neg (by simp), hl]

/-- Witness for C1 at a concrete table. -/
theorem amqp_c1_witness :
    onPublishConfirm true true 2 [(1, 10), (2, 11), (3, 12)] =
      some ([(3, 12)], [((1, 10), true), ((2, 11), true)]) :=
  ((amqp_c1 true true 2 [(1, 10), (2, 11), (3, 12)] (by decide)).1 rfl).1

/-! ## Failed-message rejection policy (C2) -/

theorem alookup_aset_self {α β : Type} [DecidableEq α] (k : α) (v : β) :
    ∀ l : List (α × β), alookup k (aset k v l) = some v := by
  intro l
  induction l with
  | nil => simp [aset, alookup]
  | cons e rest ih =>
    rw [aset]
    split
    next => simp [alookup]
    next h => rw [alookup, if_neg h]; exact ih

theorem aerase_of_alookup_none {α β : Type} [DecidableEq α] (k : α) :
    ∀ l : List (α × β), alookup k l = none → aerase k l = l := by
  intro l
  induction l with
  | nil => intro _; rfl
  | cons e rest ih =>
    intro h
    rw [alookup] at h
    split at h
    next => cases h
    next hne => rw [aerase, if_neg hne, ih h]

theorem aerase_append_of_none {α β : Type} [DecidableEq α] (k : α) :
    ∀ (l1 l2 : List (α × β)), alookup k l1 = none →
      aerase k (l1 ++ l2) = l1 ++ aerase k l2 := by
  intro l1
  induction l1 with
  | nil => intro l2 _; rfl
  | cons e rest ih =>
    intro l2 h
    rw [alookup] at h
    split at h
    next => cases h
    next hne =>
      rw [List.cons_append, aerase, if_neg hne, ih l2 h, List.cons_append]

theorem alookup_append {α β : Type} [DecidableEq α] (k : α) :
    ∀ (l1 l2 : List (α × β)),
      alookup k (l1 ++ l2) =
        match alookup k l1 with
        | some v => some v
        | none => alookup k l2 := by
  intro l1
  induction l1 with
  | nil => intro l2; rfl
  | cons e rest ih =>
    intro l2
    rw [List.cons_append, alookup, alookup]
    split
    next => rfl
    next => exact ih l2

theorem mem_keys_aset {α β : Type} [DecidableEq α] (k a : α) (v : β) :
    ∀ l : List (α × β), a ∈ (aset k v l).map Prod.fst →
      a = k ∨ a ∈ l.map Prod.fst := by
  intro l
  induction l with
  | nil => intro h; simp [aset] at h; exact Or.inl h
  | cons e rest ih =>
    intro h
    rw [aset] at h
    split at h
    next heq =>
      rw [List.map_cons] at h
      rcases List.mem_cons.mp h with h1 | h1
      · exact Or.inl h1
      · exact Or.inr (by rw [List.map_cons]; exact List.mem_cons_of_mem _ h1)
    next heq =>
      rw [List.map_cons] at h
      rcases List.mem_cons.mp h with h1 | h1
      · exact Or.inr (by rw [List.map_cons, h1]; exact List.mem_cons_self _ _)
      · rcases ih h1 with h2 | h2
        · exact Or.inl h2
        · exact Or.inr (by rw [List.map_cons]; exact List.mem_cons_of_mem _ h2)

theorem alookup_none_of_not_mem_keys {α β : Type} [DecidableEq α] (k : α) :
    ∀ l : List (α × β), ¬k ∈ l.map Prod.fst → alookup k l = none := by
  intro l
  induction l with
  | nil => intro _; rfl
  | cons e rest ih =>
    intro h
    rw [List.map_cons] at h
    rw [alookup]
    split
    next heq => exact absurd (by rw [heq]; exact List.mem_cons_self _ _) h
    next => exact ih (fun hm => h (List.mem_cons_of_mem _ hm))

theorem aset_keys_nodup {α β : Type} [DecidableEq α] (k : α) (v : β) :
    ∀ l : List (α × β), (l.map Prod.fst).Nodup → ((aset k v l).map Prod.fst).Nodup := by
  intro l
  induction l with
  | nil => intro _; simp [aset]
  | cons e rest ih =>
    intro h
    rw [List.map_cons, List.nodup_cons] at h
    rw [aset]
    split
    next heq =>
      rw [List.map_cons, List.nodup_cons]
      exact ⟨by rw [← heq]; exact h.1, h.2⟩
    next heq =>
      rw [List.map_cons, List.nodup_cons]
      refine ⟨?_, ih h.2⟩
      intro hmem
      rcases mem_keys_aset k e.1 v rest hmem with h1 | h1
      · exact heq h1
      · exact h.1 h1

theorem alookup_aerase_self {α β : Type} [DecidableEq α] (k : α) :
    ∀ l : List (α × β), (l.map Prod.fst).Nodup → alookup k (aerase k l) = none := by
  intro l
  induction l with
  | nil => intro _; rfl
  | cons e rest ih =>
    intro h
    rw [List.map_cons, List.nodup_cons] at h
    rw [aerase]
    split
    next heq =>
      refine alookup_none_of_not_mem_keys k rest ?_
      rw [← heq]
      exact h.1
    next heq =>
      rw [alookup, if_neg heq]
      exact ih h.2



/-- C2: `_handle_failed_incoming_message` on a rejectable failure.  With the
consumer's consume-state present, the delayed-reject table below its limit and
the delivery tag not already scheduled, the message is rejected later: a timer
firing at `now + requeue_delay` is appended under the consumer tag, carrying
the delivery tag, and nothing is nacked immediately; when the table is at its
limit the message is nacked with requeue immediately and the table is
unchanged. -/
theorem amqp_c2 (cstate : List (String × CState)) (fmrt : RejTable)
    (now ch : Nat) (msg : MsgInfo) (e : PyErr) (cs : CState)
    (hcs : alookup msg.consumer_tag cstate = some cs)
    (hne : ¬e = PyErr.connectionDone)
    (hnodup : (fmrt.map Prod.fst).Nodup)
    (hnew : alookup msg.delivery_tag ((alookup msg.consumer_tag fmrt).getD []) = none) :
    ((msg.redelivered = true ∨ ((alookup msg.consumer_tag fmrt).getD []).length >
        delayed_rejections_limit) →
      (cs.always_requeue = true →
        processIncomingOutcome cstate fmrt now ch msg false (.failure e) =
          some (fmrt, [])) ∧
      (cs.always_requeue = false →
        processIncomingOutcome cstate fmrt now ch msg false (.failure e) =
          some (fmrt, [MsgAction.basicReject ch msg.delivery_tag false]))) ∧
    ((msg.redelivered = false ∧ ((alookup msg.consumer_tag fmrt).getD []).length ≤
        delayed_rejections_limit) →
      (¬cs.requeue_delay = 0 →
        processIncomingOutcome cstate fmrt now ch msg false (.failure e) =
          some (aset msg.consumer_tag
                  (((alookup msg.consumer_tag fmrt).getD []) ++
                    [(msg.delivery_tag, (now + cs.requeue_delay, ch))]) fmrt,
                [MsgAction.callLater (now + cs.requeue_delay) msg.delivery_tag]) ∧
        (∀ fmrt2, fmrt2 = aset msg.consumer_tag
                  (((alookup msg.consumer_tag fmrt).getD []) ++
                    [(msg.delivery_tag, (now + cs.requeue_delay, ch))]) fmrt →
          alookup msg.delivery_tag ((alookup msg.consumer_tag fmrt2).getD []) =
            some (now + cs.requeue_delay, ch) ∧
          (nackFailedMessage fmrt2 ch msg.consumer_tag msg.delivery_tag).2 =
            [MsgAction.basicReject ch msg.delivery_tag true] ∧
          alookup msg.delivery_tag
            ((alookup msg.consumer_tag
                (nackFailedMessage fmrt2 ch msg.consumer_tag msg.delivery_tag).1).getD []) =
              none)) ∧
      (cs.requeue_delay = 0 →
        processIncomingOutcome cstate fmrt now ch msg false (.failure e) =
          some (fmrt, [MsgAction.basicReject ch msg.delivery_tag true]))) := by
  have hbase : processIncomingOutcome cstate fmrt now ch msg false (.failure e) =
      handleFailedIncomingMessage cstate fmrt now ch msg := by
    rw [processIncomingOutcome]
    simp [hne]
  constructor
  · intro hred
    have hcond : (msg.redelivered ||
        decide (((alookup msg.consumer_tag fmrt).getD []).length > delayed_rejections_limit)) = true := by
      rcases hred with h | h
      · simp [h]
      · simp [h]
    constructor
    · intro har
      rw [hbase, handleFailedIncomingMessage]
      simp only [hcond, if_true, hcs, har, ite_true]
    · intro har
      rw [hbase, handleFailedIncomingMessage]
      simp only [hcond, if_true, hcs, har, ite_false]
      simp [Bool.false_eq_true]
  · intro hred
    have hcond : (msg.redelivered ||
        decide (((alookup msg.consumer_tag fmrt).getD []).length > delayed_rejections_limit)) = false := by
      simp [hred.1]
      omega
    constructor
    · intro hdel
      constructor
      · rw [hbase, handleFailedIncomingMessage]
        simp only [hcond, Bool.false_eq_true, if_false, hcs, hdel, hnew, ite_true]
        simp [hdel]
      · intro fmrt2 hf2
        subst hf2
        have hself := alookup_aset_self msg.consumer_tag
          (((alookup msg.consumer_tag fmrt).getD []) ++
            [(msg.delivery_tag, (now + cs.requeue_delay, ch))]) fmrt
        refine ⟨?_, ?_, ?_⟩
        · rw [hself]
          simp only [Option.getD_some]
          rw [alookup_append]
          rw [hnew]
          simp [alookup]
        · rw [nackFailedMessage, hself]
          simp only
          split <;> rfl
        · rw [nackFailedMessage, hself]
          simp only
          rw [aerase_append_of_none _ _ _ hnew]
          have : aerase msg.delivery_tag
              [(msg.delivery_tag, (now + cs.requeue_delay, ch))] = [] := by
            simp [aerase]
          rw [this, List.append_nil]
          by_cases hm : ((alookup msg.consumer_tag fmrt).getD []).isEmpty
          · rw [if_pos hm]
            rw [alookup_aerase_self _ _ (aset_keys_nodup _ _ _ hnodup)]
            rfl
          · rw [if_neg hm]
            rw [alookup_aset_self]
            simpa using hnew
    · intro hdel
      rw [hbase, handleFailedIncomingMessage]
      simp only [hcond, Bool.false_eq_true, if_false, hcs, hdel, ite_true]
      simp



theorem amqp_c2_witness :
    processIncomingOutcome
      [("ct-1", { channel := 2, queueObjClosed := false, no_ack := false, callback := 7,
                  parallel := 0, kwargs := [], queue := "q", requeue_delay := 120,
                  always_requeue := false : CState })]
      [] 50 2 { delivery_tag := 9, consumer_tag := "ct-1", redelivered := false } false
      (CbOutcome.failure (PyErr.userError 1)) =
      some ([("ct-1", [(9, (170, 2))])], [MsgAction.callLater 170 9]) := by
  have h := (amqp_c2
      [("ct-1", { channel := 2, queueObjClosed := false, no_ack := false, callback := 7,
                  parallel := 0, kwargs := [], queue := "q", requeue_delay := 120,
                  always_requeue := false })]
      [] 50 2 { delivery_tag := 9, consumer_tag := "ct-1", redelivered := false }
      (PyErr.userError 1)
      { channel := 2, queueObjClosed := false, no_ack := false, callback := 7,
        parallel := 0, kwargs := [], queue := "q", requeue_delay := 120,
        always_requeue := false }
      (by decide) (by decide) (by decide) (by decide)).2 ⟨rfl, by decide⟩
  have heq := (h.1 (by decide)).1
  rw [heq]
  rfl

/-! ## Channel-close reconsume (C3), connection loss (C4), publish guard (C6), makeSender (C7), message data attribute (C8) -/

/-- C3: on a broker-initiated channel close, `_on_consuming_channel_closed`
re-issues `consumeQueue` with the stored queue, callback, consumer tag,
parallel and kwargs — but the `no_ack` argument it passes is the truthiness
of the stored *callback* (`s['callback']`), not the stored `no_ack` flag:
with a stored `no_ack = False` and a function callback the re-consume gets
`no_ack = True`, diverging from the claim. -/
theorem amqp_c3_bug :
    onConsumingChannelClosed
      [("ct-1", { channel := 3, queueObjClosed := false, no_ack := false, callback := 7,
                  parallel := 2, kwargs := [("exclusive", "1")], queue := "q",
                  requeue_delay := 0, always_requeue := false })] "ct-1" =
      ([], some { queue := "q", callback := 7, no_ack := true, consumer_tag := "ct-1",
                  parallel := 2, kwargs := [("exclusive", "1")] }) ∧
    ({ channel := 3, queueObjClosed := false, no_ack := false, callback := 7,
       parallel := 2, kwargs := [("exclusive", "1")], queue := "q",
       requeue_delay := 0, always_requeue := false : CState }).no_ack = false := by
  constructor
  · rfl
  · rfl

/-- C4 counterexample to the original claim: a no-ack consume-state entry
whose inbox is already closed gets no null terminator pushed (the effect is
guarded by `not queue_obj.closed`), and a pending delayed-reject task is left
in `_failed_msg_rej_tasks`, which `connectionLost` never touches — so the
original claim's unconditional terminator push and emptied delayed-reject
table both fail. -/
theorem amqp_c4_cex :
    (connectionLost
      { ready_for_publish := true,
        consume_state := [("ct-1",
          { channel := 3, queueObjClosed := true, no_ack := true, callback := 7,
            parallel := 0, kwargs := [], queue := "q", requeue_delay := 0,
            always_requeue := false })],
        published_messages := [],
        failed_msg_rej_tasks := [("ct-1", [(5, (99, 3))])] }
      PyErr.connectionDone).1.failed_msg_rej_tasks = [("ct-1", [(5, (99, 3))])] ∧
    ¬ LostAction.putNone "ct-1" ∈
      (connectionLost
        { ready_for_publish := true,
          consume_state := [("ct-1",
            { channel := 3, queueObjClosed := true, no_ack := true, callback := 7,
              parallel := 0, kwargs := [], queue := "q", requeue_delay := 0,
              always_requeue := false })],
          published_messages := [],
          failed_msg_rej_tasks := [("ct-1", [(5, (99, 3))])] }
        PyErr.connectionDone).2 := by
  constructor
  · rfl
  · decide

/-- C4 amended: on `connectionLost` with reason `r`, ready-for-publish
becomes falsy; every consume-state entry with an unclosed inbox receives a
null terminator (no-ack) or a close-with-`r` (acking); every pending confirm
handle is failed with `r` exactly once; the consume-state and
published-confirm tables end empty; the delayed-reject table is left
untouched by `connectionLost` itself. -/
theorem amqp_c4 (st : ProtoState) (r : PyErr) :
    (connectionLost st r).1.ready_for_publish = false ∧
    (connectionLost st r).1.consume_state = [] ∧
    (connectionLost st r).1.published_messages = [] ∧
    (connectionLost st r).1.failed_msg_rej_tasks = st.failed_msg_rej_tasks ∧
    (∀ ct cs, (ct, cs) ∈ st.consume_state → cs.queueObjClosed = false →
      (cs.no_ack = true → LostAction.putNone ct ∈ (connectionLost st r).2) ∧
      (cs.no_ack = false → LostAction.closeInbox ct r ∈ (connectionLost st r).2)) ∧
    ((connectionLost st r).2.filter
        (fun a => match a with | LostAction.errback _ _ => true | _ => false) =
      st.published_messages.map (fun e => LostAction.errback e.2 r)) := by
  refine ⟨rfl, rfl, rfl, rfl, ?_, ?_⟩
  · intro ct cs hmem hopen
    constructor
    · intro hna
      show LostAction.putNone ct ∈ _
      rw [connectionLost]
      simp only [List.mem_append]
      left
      rw [List.mem_filterMap]
      refine ⟨(ct, cs), hmem, ?_⟩
      simp [hna, hopen]
    · intro hna
      show LostAction.closeInbox ct r ∈ _
      rw [connectionLost]
      simp only [List.mem_append]
      left
      rw [List.mem_filterMap]
      refine ⟨(ct, cs), hmem, ?_⟩
      simp [hna, hopen]
  · rw [connectionLost]
    simp only [List.filter_append]
    have h1 : (st.consume_state.filterMap (fun e =>
        if e.2.no_ack && !e.2.queueObjClosed then some (LostAction.putNone e.1)
        else if !e.2.queueObjClosed && !e.2.no_ack then some (LostAction.closeInbox e.1 r)
        else none)).filter
        (fun a => match a with | LostAction.errback _ _ => true | _ => false) = [] := by
      rw [List.filter_eq_nil_iff]
      intro a ha
      rw [List.mem_filterMap] at ha
      obtain ⟨e, _, he⟩ := ha
      split at he
      next => cases he; simp
      next =>
        split at he
        next => cases he; simp
        next => cases he
    rw [h1, List.nil_append]
    rw [failPublishedMessages, List.filter_map]
    have h2 : List.filter
        ((fun a => match a with | LostAction.errback _ _ => true | _ => false) ∘
          (fun e : Nat × Nat => LostAction.errback e.2 r)) st.published_messages =
        st.published_messages := by
      apply List.filter_eq_self.mpr
      intro e _
      rfl
    rw [h2]



/-- C4 witness -/
theorem amqp_c4_witness :
    LostAction.putNone "a" ∈
      (connectionLost
        { ready_for_publish := true,
          consume_state := [("a",
            { channel := 1, queueObjClosed := false, no_ack := true, callback := 7,
              parallel := 0, kwargs := [], queue := "q", requeue_delay := 0,
              always_requeue := false })],
          published_messages := [(1, 5)],
          failed_msg_rej_tasks := [] }
        PyErr.connectionDone).2 :=
  ((amqp_c4
    { ready_for_publish := true,
      consume_state := [("a",
        { channel := 1, queueObjClosed := false, no_ack := true, callback := 7,
          parallel := 0, kwargs := [], queue := "q", requeue_delay := 0,
          always_requeue := false })],
      published_messages := [(1, 5)],
      failed_msg_rej_tasks := [] }
    PyErr.connectionDone).2.2.2.2.1 "a"
      { channel := 1, queueObjClosed := false, no_ack := true, callback := 7,
        parallel := 0, kwargs := [], queue := "q", requeue_delay := 0,
        always_requeue := false }
      (by decide) rfl).1 rfl

/-- C6: `publishMessage` on a protocol that is not ready for publish raises
`_NotReadyForPublish` before serializing, submitting to the channel or
touching the published-confirm table: the embedding returns the error with
no action and no state change. -/
theorem amqp_c6 (st : PubProtoState) (exchange routing_key : String) (body : JVal)
    (ttl : Option Int) (ct : Option String) (confirm : Bool)
    (h : st.ready_for_publish = false) :
    publishMessage st exchange routing_key body ttl ct confirm =
      Except.error PublishErr.notReadyForPublish := by
  rw [publishMessage.eq_def]
  simp [h]

/-- C6 witness -/
theorem amqp_c6_witness :
    publishMessage
      { ready_for_publish := false, safewrite_channel := some 4, write_channel := 3,
        publish_counter := 0, published_messages := [], nextH := 0 }
      "ex" "rk" (JVal.jint 1) none (some "json") true =
      Except.error PublishErr.notReadyForPublish :=
  amqp_c6 _ "ex" "rk" (JVal.jint 1) none (some "json") true rfl

/-- C7 counterexample to the original claim: `makeSender` without an explicit
content type publishes with content type `'json'` (the source default at the
`makeSender` signature), not `'application/json'` as the claim states. -/
theorem amqp_c7_cex :
    Option.map (fun send => (send JVal.null).content_type)
      (makeSender "conn" "ex" none none makeSenderDefaultContentType
        makeSenderDefaultConfirm) = some (some "json") ∧
    ¬ (some "json" : Option String) = some "application/json" := by
  constructor
  · rfl
  · decide

/-- C7 amended: `makeSender` rejects supplying both `routing_key` and
`routing_key_fn`; otherwise the returned closure `send(data)` publishes via
the named factory with routing key `routing_key` if given, else
`routing_key_fn(data)` if given, else the empty string, and with the
defaults content type `'json'` and `confirm = true` when those arguments are
omitted. -/
theorem amqp_c7 (connection exchange : String) (routing_key : Option String)
    (routing_key_fn : Option (JVal → String)) (data : JVal)
    (hassert : routing_key = none ∨ routing_key_fn = none) :
    ∃ send, makeSender connection exchange routing_key routing_key_fn
        makeSenderDefaultContentType makeSenderDefaultConfirm = some send ∧
      send data = { connection := connection, exchange := exchange,
                    routing_key :=
                      match routing_key with
                      | some s => s
                      | none =>
                        match routing_key_fn with
                        | some f => f data
                        | none => "",
                    body := data, content_type := some "json", confirm := true } := by
  have hna : ¬(routing_key.isSome ∧ routing_key_fn.isSome) := by
    rcases hassert with h | h <;> simp [h]
  have hmk : makeSender connection exchange routing_key routing_key_fn
      makeSenderDefaultContentType makeSenderDefaultConfirm =
      some (fun d =>
        { connection := connection, exchange := exchange,
          routing_key := (pyOrStr routing_key (pyFnAnd routing_key_fn d)).getD "",
          body := d, content_type := makeSenderDefaultContentType,
          confirm := makeSenderDefaultConfirm }) := by
    rw [makeSender, if_neg hna]
  refine ⟨_, hmk, ?_⟩
  simp only [makeSenderDefaultContentType, makeSenderDefaultConfirm]
  rcases hassert with hrk | hfn
  · subst hrk
    cases routing_key_fn with
    | none => simp [pyOrStr, pyFnAnd]
    | some f => simp [pyOrStr, pyFnAnd]
  · subst hfn
    cases routing_key with
    | none => simp [pyOrStr, pyFnAnd]
    | some s =>
      by_cases hs : s = ""
      · subst hs
        simp [pyOrStr, pyFnAnd]
      · simp [pyOrStr, pyFnAnd, hs]

/-- C7 witness -/
theorem amqp_c7_witness :
    ∃ send, makeSender "c" "e" (some "k") none makeSenderDefaultContentType
        makeSenderDefaultConfirm = some send ∧
      send (JVal.jint 1) = { connection := "c", exchange := "e", routing_key := "k",
                             body := JVal.jint 1, content_type := some "json",
                             confirm := true } :=
  amqp_c7 "c" "e" (some "k") none (JVal.jint 1) (Or.inr rfl)

/-- C8: reading `msg.data` on an `AMQPMessage` never returns the decoded
body — the property getter assigns `self.data`, but `data` is a property
without a setter (a data descriptor), so the assignment raises
`AttributeError`; lookup then falls back to `__getattr__`, and neither the
properties nor the deliver object has a `data` attribute, so the read always
fails, even though the body itself deserializes correctly. -/
theorem amqp_c8_bug :
    readDataAttr
      { body := JVal.jstr ['1'],
        deliver := { delivery_tag := 1, consumer_tag := "ct-1", redelivered := false,
                     exchange := "", routing_key := "" },
        properties := { content_type := some "json" } } =
      Except.error AttrFailure.attributeError ∧
    deserialize (JVal.jstr ['1']) (some "json") = some (JVal.jint 1) := by
  have henc : dumpsJson (JVal.jint 1) = ['1'] := by
    rw [dumpsJson, encVal, encInt]
    norm_num
    rw [natDigits]
    decide
  have hload : loadsJson ['1'] = some (JVal.jint 1) := by
    rw [← henc]
    exact loadsJson_dumpsJson (JVal.jint 1)
  have hdes : deserialize (JVal.jstr ['1']) (some "json") = some (JVal.jint 1) := by
    rw [deserialize]
    rw [show MESSAGE_SERIALIZERS.lookup (pyLower "json") = some SerializerKind.json from by decide]
    exact hload
  refine ⟨?_, hdes⟩
  rw [readDataAttr, dataGetter, hdes]
  rfl

/-! ## declareQueue argument merging (C10) -/

theorem alookup_aset_ne {α β : Type} [DecidableEq α] (k k' : α) (v : β)
    (hne : ¬k = k') : ∀ l : List (α × β), alookup k' (aset k v l) = alookup k' l := by
  intro l
  induction l with
  | nil => simp [aset, alookup, hne]
  | cons e rest ih =>
    rw [aset]
    split
    next heq =>
      rw [alookup, if_neg hne, alookup, if_neg (by rw [heq]; exact hne)]
    next heq =>
      rw [alookup, alookup]
      split
      next => rfl
      next => exact ih

theorem heapGet_lt {h : ArgHeap} {a : Nat} {d : ArgDict} (hg : heapGet h a = some d) :
    a < h.length := by
  by_contra hcon
  rw [heapGet, List.getElem?_eq_none (by omega)] at hg
  cases hg

theorem heapGet_append_left {h : ArgHeap} {a : Nat} (d : ArgDict) (hlt : a < h.length) :
    heapGet (h ++ [d]) a = heapGet h a := by
  rw [heapGet, heapGet]
  exact List.getElem?_append_left hlt

theorem heapGet_append_self (h : ArgHeap) (d : ArgDict) :
    heapGet (h ++ [d]) h.length = some d := by
  rw [heapGet]
  exact List.getElem?_concat_length h d



/-- C10: `declareQueue` argument preparation.  `dict(arguments or ())`
allocates a fresh dict (the caller's dict cell is unchanged); when
`message_ttl`, `dead_letter_exchange` or `max_length` are given, the
corresponding `x-message-ttl`, `x-dead-letter-exchange` and `x-max-length`
keys are set in the copy, and every other key of the original is
preserved. -/
theorem amqp_c10 (h : ArgHeap) (mttl : Option Int) (dle : Option String)
    (rk : Option String) (a0 : Nat) (d0 : ArgDict)
    (ha0 : heapGet h a0 = some d0)
    (hgiven : ¬mttl = none ∨ ¬dle = none) :
    ∃ h2 a1, declareQueueArguments h mttl dle rk (some a0) = (h2, some a1) ∧
      ¬a1 = a0 ∧
      heapGet h2 a0 = some d0 ∧
      ∃ d1, heapGet h2 a1 = some d1 ∧
        (∀ t, mttl = some t → alookup "x-message-ttl" d1 = some (ArgVal.ofInt t)) ∧
        (∀ e, dle = some e →
          alookup "x-dead-letter-exchange" d1 = some (ArgVal.ofStr e)) ∧
        (∀ e r, dle = some e → rk = some r → ¬r = "" →
          alookup "x-dead-letter-routing-key" d1 = some (ArgVal.ofStr r)) ∧
        (∀ k, ¬k = "x-message-ttl" → ¬k = "x-dead-letter-exchange" →
          ¬k = "x-dead-letter-routing-key" → alookup k d1 = alookup k d0) := by
  have hlt := heapGet_lt ha0
  cases mttl with
  | none =>
    cases dle with
    | none => simp at hgiven
    | some e =>
      cases rk with
      | none =>
        refine ⟨h ++ [aset "x-dead-letter-exchange" (ArgVal.ofStr e) d0], h.length,
          ?_, by omega, ?_, aset "x-dead-letter-exchange" (ArgVal.ofStr e) d0,
          heapGet_append_self _ _, ?_, ?_, ?_, ?_⟩
        · rw [declareQueueArguments]
          simp [ha0]
        · rw [heapGet_append_left _ hlt]; exact ha0
        · intro t ht; cases ht
        · intro e2 he2; cases he2; exact alookup_aset_self _ _ _
        · intro e2 r2 _ hr2; cases hr2
        · intro k _ h2 _
          exact alookup_aset_ne _ _ _ (fun hk => h2 hk.symm) _
      | some r =>
        by_cases hr : r = ""
        · subst hr
          refine ⟨h ++ [aset "x-dead-letter-exchange" (ArgVal.ofStr e) d0], h.length,
            ?_, by omega, ?_, aset "x-dead-letter-exchange" (ArgVal.ofStr e) d0,
            heapGet_append_self _ _, ?_, ?_, ?_, ?_⟩
          · rw [declareQueueArguments]
            simp [ha0]
          · rw [heapGet_append_left _ hlt]; exact ha0
          · intro t ht; cases ht
          · intro e2 he2; cases he2; exact alookup_aset_self _ _ _
          · intro e2 r2 _ hr2 hne2; cases hr2; exact absurd rfl hne2
          · intro k _ h2 _
            exact alookup_aset_ne _ _ _ (fun hk => h2 hk.symm) _
        · refine ⟨h ++ [aset "x-dead-letter-routing-key" (ArgVal.ofStr r)
              (aset "x-dead-letter-exchange" (ArgVal.ofStr e) d0)], h.length,
            ?_, by omega, ?_, aset "x-dead-letter-routing-key" (ArgVal.ofStr r)
              (aset "x-dead-letter-exchange" (ArgVal.ofStr e) d0),
            heapGet_append_self _ _, ?_, ?_, ?_, ?_⟩
          · rw [declareQueueArguments]
            simp [ha0, hr]
          · rw [heapGet_append_left _ hlt]; exact ha0
          · intro t ht; cases ht
          · intro e2 he2
            cases he2
            rw [alookup_aset_ne _ _ _ (by decide) _]
            exact alookup_aset_self _ _ _
          · intro e2 r2 _ hr2 _; cases hr2; exact alookup_aset_self _ _ _
          · intro k _ h2 h3
            rw [alookup_aset_ne _ _ _ (fun hk => h3 hk.symm) _]
            exact alookup_aset_ne _ _ _ (fun hk => h2 hk.symm) _
  | some t =>
    cases dle with
    | none =>
      refine ⟨h ++ [aset "x-message-ttl" (ArgVal.ofInt t) d0], h.length,
        ?_, by omega, ?_, aset "x-message-ttl" (ArgVal.ofInt t) d0,
        heapGet_append_self _ _, ?_, ?_, ?_, ?_⟩
      · rw [declareQueueArguments]
        simp [ha0]
      · rw [heapGet_append_left _ hlt]; exact ha0
      · intro t2 ht2; cases ht2; exact alookup_aset_self _ _ _
      · intro e2 he2; cases he2
      · intro e2 r2 he2 _ _; cases he2
      · intro k h1 _ _
        exact alookup_aset_ne _ _ _ (fun hk => h1 hk.symm) _
    | some e =>
      have hm : heapGet (h ++ [aset "x-message-ttl" (ArgVal.ofInt t) d0]) h.length =
          some (aset "x-message-ttl" (ArgVal.ofInt t) d0) := heapGet_append_self _ _
      cases rk with
      | none =>
        refine ⟨(h ++ [aset "x-message-ttl" (ArgVal.ofInt t) d0]) ++
            [aset "x-dead-letter-exchange" (ArgVal.ofStr e)
              (aset "x-message-ttl" (ArgVal.ofInt t) d0)],
          (h ++ [aset "x-message-ttl" (ArgVal.ofInt t) d0]).length,
          ?_, by simp; omega, ?_, aset "x-dead-letter-exchange" (ArgVal.ofStr e)
              (aset "x-message-ttl" (ArgVal.ofInt t) d0),
          heapGet_append_self _ _, ?_, ?_, ?_, ?_⟩
        · rw [declareQueueArguments]
          simp [ha0, hm]
        · rw [heapGet_append_left _ (by simp; omega), heapGet_append_left _ hlt]
          exact ha0
        · intro t2 ht2
          cases ht2
          rw [alookup_aset_ne _ _ _ (by decide) _]
          exact alookup_aset_self _ _ _
        · intro e2 he2; cases he2; exact alookup_aset_self _ _ _
        · intro e2 r2 _ hr2; cases hr2
        · intro k h1 h2 _
          rw [alookup_aset_ne _ _ _ (fun hk => h2 hk.symm) _]
          exact alookup_aset_ne _ _ _ (fun hk => h1 hk.symm) _
      | some r =>
        by_cases hr : r = ""
        · subst hr
          refine ⟨(h ++ [aset "x-message-ttl" (ArgVal.ofInt t) d0]) ++
              [aset "x-dead-letter-exchange" (ArgVal.ofStr e)
                (aset "x-message-ttl" (ArgVal.ofInt t) d0)],
            (h ++ [aset "x-message-ttl" (ArgVal.ofInt t) d0]).length,
            ?_, by simp; omega, ?_, aset "x-dead-letter-exchange" (ArgVal.ofStr e)
                (aset "x-message-ttl" (ArgVal.ofInt t) d0),
            heapGet_append_self _ _, ?_, ?_, ?_, ?_⟩
          · rw [declareQueueArguments]
            simp [ha0, hm]
          · rw [heapGet_append_left _ (by simp; omega), heapGet_append_left _ hlt]
            exact ha0
          · intro t2 ht2
            cases ht2
            rw [alookup_aset_ne _ _ _ (by decide) _]
            exact alookup_aset_self _ _ _
          · intro e2 he2; cases he2; exact alookup_aset_self _ _ _
          · intro e2 r2 _ hr2 hne2; cases hr2; exact absurd rfl hne2
          · intro k h1 h2 _
            rw [alookup_aset_ne _ _ _ (fun hk => h2 hk.symm) _]
            exact alookup_aset_ne _ _ _ (fun hk => h1 hk.symm) _
        · refine ⟨(h ++ [aset "x-message-ttl" (ArgVal.ofInt t) d0]) ++
              [aset "x-dead-letter-routing-key" (ArgVal.ofStr r)
                (aset "x-dead-letter-exchange" (ArgVal.ofStr e)
                  (aset "x-message-ttl" (ArgVal.ofInt t) d0))],
            (h ++ [aset "x-message-ttl" (ArgVal.ofInt t) d0]).length,
            ?_, by simp; omega, ?_, aset "x-dead-letter-routing-key" (ArgVal.ofStr r)
                (aset "x-dead-letter-exchange" (ArgVal.ofStr e)
                  (aset "x-message-ttl" (ArgVal.ofInt t) d0)),
            heapGet_append_self _ _, ?_, ?_, ?_, ?_⟩
          · rw [declareQueueArguments]
            simp [ha0, hm, hr]
          · rw [heapGet_append_left _ (by simp; omega), heapGet_append_left _ hlt]
            exact ha0
          · intro t2 ht2
            cases ht2
            rw [alookup_aset_ne _ _ _ (by decide) _, alookup_aset_ne _ _ _ (by decide) _]
            exact alookup_aset_self _ _ _
          · intro e2 he2
            cases he2
            rw [alookup_aset_ne _ _ _ (by decide) _]
            exact alookup_aset_self _ _ _
          · intro e2 r2 _ hr2 _; cases hr2; exact alookup_aset_self _ _ _
          · intro k h1 h2 h3
            rw [alookup_aset_ne _ _ _ (fun hk => h3 hk.symm) _,
              alookup_aset_ne _ _ _ (fun hk => h2 hk.symm) _]
            exact alookup_aset_ne _ _ _ (fun hk => h1 hk.symm) _

/-- C10 witness -/
theorem amqp_c10_witness :
    ∃ h2 a1, declareQueueArguments [[("k", ArgVal.ofStr "v")]] (some 60) (some "dlx")
        none (some 0) = (h2, some a1) ∧ ¬a1 = 0 ∧
      heapGet h2 0 = some [("k", ArgVal.ofStr "v")] ∧
      ∃ d1, heapGet h2 a1 = some d1 ∧
        (∀ t, (some 60 : Option Int) = some t →
          alookup "x-message-ttl" d1 = some (ArgVal.ofInt t)) ∧
        (∀ e, (some "dlx" : Option String) = some e →
          alookup "x-dead-letter-exchange" d1 = some (ArgVal.ofStr e)) ∧
        (∀ e r, (some "dlx" : Option String) = some e → (none : Option String) = some r →
          ¬r = "" → alookup "x-dead-letter-routing-key" d1 = some (ArgVal.ofStr r)) ∧
        (∀ k, ¬k = "x-message-ttl" → ¬k = "x-dead-letter-exchange" →
          ¬k = "x-dead-letter-routing-key" →
          alookup k d1 = alookup k [("k", ArgVal.ofStr "v")]) :=
  amqp_c10 [[("k", ArgVal.ofStr "v")]] (some 60) (some "dlx") none 0
    [("k", ArgVal.ofStr "v")] (by decide) (Or.inl (by decide))

theorem aerase_sublist {α β : Type} [DecidableEq α] (k : α) :
    ∀ l : List (α × β), (aerase k l).Sublist l := by
  intro l
  induction l with
  | nil => simp [aerase]
  | cons e rest ih =>
    rw [aerase]
    split
    next => exact List.sublist_cons_self e rest
    next => exact List.Sublist.cons₂ e ih

theorem not_mem_aerase_of_nodup {α β : Type} [DecidableEq α] (k : α) (v : β) :
    ∀ l : List (α × β), (l.map Prod.snd).Nodup → alookup k l = some v →
      ¬(k, v) ∈ aerase k l := by
  intro l
  induction l with
  | nil => intro _ hl; simp [alookup] at hl
  | cons e rest ih =>
    intro hnd hl
    rw [List.map_cons, List.nodup_cons] at hnd
    rw [alookup] at hl
    rw [aerase]
    split at hl
    next heq =>
      cases hl
      rw [if_pos heq]
      intro hmem
      exact hnd.1 (List.mem_map.mpr ⟨(k, e.2), hmem, rfl⟩)
    next hne =>
      rw [if_neg hne]
      intro hmem
      rcases List.mem_cons.mp hmem with h1 | h1
      · exact hne (by rw [← h1])
      · exact ih hnd.2 hl h1

theorem filter_map_snd_sublist (p : Nat × Nat → Bool) (l : List (Nat × Nat)) :
    ((l.filter p).map Prod.snd).Sublist (l.map Prod.snd) :=
  List.Sublist.map Prod.snd (List.filter_sublist l)

/-- Per-event preservation of the confirm-table invariants. -/
theorem stepPub_invariant (st : PubState) (e : PubEvent)
    (hnd : (st.table.map Prod.snd).Nodup)
    (hlt : ∀ hh ∈ st.table.map Prod.snd, hh < st.nextH) :
    ∀ st1 out1 pubs1, stepPub st e = some (st1, out1, pubs1) →
      (st1.table.map Prod.snd).Nodup ∧
      (∀ hh ∈ st1.table.map Prod.snd, hh < st1.nextH) ∧
      st.nextH ≤ st1.nextH ∧
      (out1.map Prod.fst).Nodup ∧
      (∀ hh ∈ out1.map Prod.fst, hh ∈ st.table.map Prod.snd) ∧
      (∀ hh ∈ st1.table.map Prod.snd,
        hh ∈ st.table.map Prod.snd ∨ (st.nextH ≤ hh ∧ hh < st1.nextH)) ∧
      (∀ hh ∈ st1.table.map Prod.snd, ¬hh ∈ out1.map Prod.fst) := by
  intro st1 out1 pubs1 hstep
  cases e with
  | publish =>
    rw [stepPub] at hstep
    cases hstep
    refine ⟨?_, ?_, by simp, by simp, by simp, ?_, by simp⟩
    · simp only [List.map_append, List.map_cons, List.map_nil]
      rw [List.nodup_append]
      refine ⟨hnd, List.nodup_singleton _, ?_⟩
      intro hh hmem hmem2
      simp at hmem2
      subst hmem2
      exact absurd (hlt _ hmem) (by omega)
    · intro hh hmem
      simp only [List.map_append, List.map_cons, List.map_nil, List.mem_append] at hmem
      rcases hmem with h1 | h1
      · have := hlt hh h1
        simp
        omega
      · simp at h1
        subst h1
        simp
    · intro hh hmem
      simp only [List.map_append, List.map_cons, List.map_nil, List.mem_append] at hmem
      rcases hmem with h1 | h1
      · exact Or.inl h1
      · simp at h1
        subst h1
        exact Or.inr (by simp)
  | confirm ack mult dt =>
    rw [stepPub] at hstep
    rcases hconf : onPublishConfirm ack mult dt st.table with _ | ⟨tbl, res⟩
    · rw [hconf] at hstep; cases hstep
    · rw [hconf] at hstep
      cases hstep
      rw [onPublishConfirm] at hconf
      by_cases hm : mult
      · rw [if_pos hm, confirmMultiple_eq] at hconf
        cases hconf
        simp only [List.map_map]
        have hcomp : (Prod.fst ∘ (fun r : (Nat × Nat) × Bool => (r.1.2, r.2)) ∘
            (fun e : Nat × Nat => (e, ack))) = Prod.snd := rfl
        refine ⟨?_, ?_, le_rfl, ?_, ?_, ?_, ?_⟩
        · exact (filter_map_snd_sublist _ _).nodup hnd
        · intro hh hmem
          exact hlt hh ((filter_map_snd_sublist _ _).subset hmem)
        · rw [hcomp]
          exact (filter_map_snd_sublist _ _).nodup hnd
        · rw [hcomp]
          intro hh hmem
          exact (filter_map_snd_sublist _ _).subset hmem
        · intro hh hmem
          exact Or.inl ((filter_map_snd_sublist _ _).subset hmem)
        · rw [hcomp]
          intro hh hmem hmem2
          rw [List.mem_map] at hmem hmem2
          obtain ⟨a, ha, hha⟩ := hmem
          obtain ⟨b, hb, hhb⟩ := hmem2
          have ha2 := List.mem_filter.mp ha
          have hb2 := List.mem_filter.mp hb
          have hab : a = b :=
            List.inj_on_of_nodup_map hnd ha2.1 hb2.1 (by rw [hha, hhb])
          have hga := ha2.2
          have hgb := hb2.2
          rw [hab] at hga
          simp at hga hgb
          omega
      · rw [if_neg hm] at hconf
        cases halk : alookup dt st.table with
        | none => rw [halk] at hconf; cases hconf
        | some hv =>
          rw [halk] at hconf
          change some (aerase dt st.table, [((dt, hv), ack)]) = some (tbl, res) at hconf
          cases hconf
          have hmem0 : (dt, hv) ∈ st.table := alookup_mem halk
          have hsub := (aerase_sublist dt st.table).map Prod.snd
          refine ⟨hsub.nodup hnd, ?_, le_rfl, by simp, ?_, ?_, ?_⟩
          · intro hh hmem
            exact hlt hh (hsub.subset hmem)
          · intro hh hmem
            simp only [List.map_map, List.map_cons, List.map_nil] at hmem
            simp at hmem
            subst hmem
            exact List.mem_map.mpr ⟨(dt, hh), hmem0, rfl⟩
          · intro hh hmem
            exact Or.inl (hsub.subset hmem)
          · intro hh hmem hmem2
            simp only [List.map_map, List.map_cons, List.map_nil] at hmem2
            simp at hmem2
            subst hmem2
            rw [List.mem_map] at hmem
            obtain ⟨b, hb, hhb⟩ := hmem
            have hbtab : b ∈ st.table := (aerase_sublist dt st.table).subset hb
            have hbeq : b = (dt, hh) :=
              List.inj_on_of_nodup_map hnd hbtab hmem0 (by rw [hhb])
            rw [hbeq] at hb
            exact not_mem_aerase_of_nodup dt hh st.table hnd halk hb
  | safeChanClosed =>
    rw [stepPub] at hstep
    cases hstep
    refine ⟨by simp, by simp, by simp, ?_, ?_, by simp, by simp⟩
    · simp only [List.map_map]
      have : (Prod.fst ∘ fun e : Nat × Nat => (e.2, false)) = Prod.snd := rfl
      rw [this]
      exact hnd
    · intro hh hmem
      simp only [List.map_map] at hmem
      have : (Prod.fst ∘ fun e : Nat × Nat => (e.2, false)) = Prod.snd := rfl
      rw [this] at hmem
      exact hmem
  | connLost =>
    rw [stepPub] at hstep
    cases hstep
    refine ⟨by simp, by simp, by simp, ?_, ?_, by simp, by simp⟩
    · simp only [List.map_map]
      have : (Prod.fst ∘ fun e : Nat × Nat => (e.2, false)) = Prod.snd := rfl
      rw [this]
      exact hnd
    · intro hh hmem
      simp only [List.map_map] at hmem
      have : (Prod.fst ∘ fun e : Nat × Nat => (e.2, false)) = Prod.snd := rfl
      rw [this] at hmem
      exact hmem



/-- Trace-level preservation: along any event run, resolutions are pairwise
distinct handles and remain disjoint from the pending table. -/
theorem runPub_invariant :
    ∀ (evs : List PubEvent) (st : PubState),
      (st.table.map Prod.snd).Nodup →
      (∀ hh ∈ st.table.map Prod.snd, hh < st.nextH) →
      ∀ st2 out pubs, runPub st evs = some (st2, out, pubs) →
        (st2.table.map Prod.snd).Nodup ∧
        (∀ hh ∈ st2.table.map Prod.snd, hh < st2.nextH) ∧
        st.nextH ≤ st2.nextH ∧
        (out.map Prod.fst).Nodup ∧
        (∀ hh ∈ out.map Prod.fst,
          hh ∈ st.table.map Prod.snd ∨ (st.nextH ≤ hh ∧ hh < st2.nextH)) ∧
        (∀ hh ∈ st2.table.map Prod.snd,
          hh ∈ st.table.map Prod.snd ∨ (st.nextH ≤ hh ∧ hh < st2.nextH)) ∧
        (∀ hh ∈ st2.table.map Prod.snd, ¬hh ∈ out.map Prod.fst) := by
  intro evs
  induction evs with
  | nil =>
    intro st hnd hlt st2 out pubs hrun
    rw [runPub] at hrun
    cases hrun
    exact ⟨hnd, hlt, le_rfl, by simp, by simp, fun hh hm => Or.inl hm, by simp⟩
  | cons e es ih =>
    intro st hnd hlt st2 out pubs hrun
    rw [runPub] at hrun
    rcases hstep : stepPub st e with _ | ⟨⟨st1, out1, pubs1⟩⟩
    · rw [hstep] at hrun; cases hrun
    · rw [hstep] at hrun
      change (match runPub st1 es with
        | none => none
        | some (st2, r2, p2) => some (st2, out1 ++ r2, pubs1 ++ p2)) =
          some (st2, out, pubs) at hrun
      rcases hrest : runPub st1 es with _ | ⟨⟨st2x, out2, pubs2⟩⟩
      · rw [hrest] at hrun; cases hrun
      · rw [hrest] at hrun
        change some (st2x, out1 ++ out2, pubs1 ++ pubs2) = some (st2, out, pubs) at hrun
        cases hrun
        obtain ⟨s1, s2, s3, s4, s5, s6, s7⟩ :=
          stepPub_invariant st e hnd hlt st1 out1 pubs1 hstep
        obtain ⟨r1, r2, r3, r4, r5, r6, r7⟩ := ih st1 s1 s2 _ out2 pubs2 hrest
        have hout1lt : ∀ hh ∈ out1.map Prod.fst, hh < st.nextH :=
          fun hh hm => hlt hh (s5 hh hm)
        refine ⟨r1, r2, le_trans s3 r3, ?_, ?_, ?_, ?_⟩
        · rw [List.map_append]
          rw [List.nodup_append]
          refine ⟨s4, r4, ?_⟩
          intro hh hm1 hm2
          rcases r5 hh hm2 with h1 | h1
          · exact s7 hh h1 hm1
          · exact absurd (hout1lt hh hm1) (by omega)
        · intro hh hm
          rw [List.map_append, List.mem_append] at hm
          rcases hm with hm | hm
          · exact Or.inl (s5 hh hm)
          · rcases r5 hh hm with h1 | h1
            · rcases s6 hh h1 with h2 | h2
              · exact Or.inl h2
              · exact Or.inr ⟨h2.1, by omega⟩
            · exact Or.inr ⟨le_trans s3 h1.1, h1.2⟩
        · intro hh hm
          rcases r6 hh hm with h1 | h1
          · rcases s6 hh h1 with h2 | h2
            · exact Or.inl h2
            · exact Or.inr ⟨h2.1, by omega⟩
          · exact Or.inr ⟨le_trans s3 h1.1, h1.2⟩
        · intro hh hm
          rw [List.map_append, List.mem_append]
          rintro (hm1 | hm1)
          · rcases r6 hh hm with h1 | h1
            · exact s7 hh h1 hm1
            · exact absurd (hout1lt hh hm1) (by omega)
          · exact r7 hh hm hm1



/-- C5: delivery tags for confirmed publishes come from a per-safe-write
channel counter — after `k` publishes from any state the assigned tags are
`counter+1, ..., counter+k`; each publish inserts its `(tag, handle)` pair
into the published-confirm table; along any event trace from the fresh
channel state every handle is resolved at most once and pending handles are
disjoint from resolved ones; `connectionLost` fails every pending handle and
empties the table, and a safe-channel close does the same and resets the
counter — so every handle is resolved exactly once. -/
theorem amqp_c5 :
    (∀ (st : PubState) (k : Nat), ∃ st2 pubs,
        runPub st (List.replicate k PubEvent.publish) = some (st2, [], pubs) ∧
        pubs.map Prod.fst = List.range' (st.counter + 1) k ∧
        st2.counter = st.counter + k) ∧
    (∀ st : PubState,
        stepPub st PubEvent.publish =
          some ({ counter := st.counter + 1,
                  table := st.table ++ [(st.counter + 1, st.nextH)],
                  nextH := st.nextH + 1 }, [], [(st.counter + 1, st.nextH)]) ∧
        (st.counter + 1, st.nextH) ∈ st.table ++ [(st.counter + 1, st.nextH)]) ∧
    (∀ evs st2 out pubs, runPub initPubState evs = some (st2, out, pubs) →
        (out.map Prod.fst).Nodup ∧
        (∀ e ∈ st2.table, ¬e.2 ∈ out.map Prod.fst)) ∧
    (∀ st : PubState,
        stepPub st PubEvent.connLost =
          some ({ st with table := [] }, st.table.map (fun e => (e.2, false)), []) ∧
        stepPub st PubEvent.safeChanClosed =
          some ({ counter := 0, table := [], nextH := st.nextH },
                st.table.map (fun e => (e.2, false)), [])) := by
  refine ⟨?_, ?_, ?_, ?_⟩
  · intro st k
    induction k generalizing st with
    | zero =>
      exact ⟨st, [], rfl, by simp, by simp⟩
    | succ k ihk =>
      obtain ⟨st2, pubs, hrun, hmap, hcnt⟩ :=
        ihk { counter := st.counter + 1,
              table := st.table ++ [(st.counter + 1, st.nextH)],
              nextH := st.nextH + 1 }
      refine ⟨st2, (st.counter + 1, st.nextH) :: pubs, ?_, ?_, ?_⟩
      · rw [List.replicate, runPub]
        simp [stepPub, hrun]
      · rw [List.map_cons, hmap]
        simp [List.range'_succ]
      · rw [hcnt]
        show st.counter + 1 + k = st.counter + (k + 1)
        omega
  · intro st
    exact ⟨rfl, by simp⟩
  · intro evs st2 out pubs hrun
    have h := runPub_invariant evs initPubState (by simp [initPubState])
      (by simp [initPubState]) st2 out pubs hrun
    refine ⟨h.2.2.2.1, ?_⟩
    intro e hmem hfst
    exact h.2.2.2.2.2.2 e.2 (List.mem_map.mpr ⟨e, hmem, rfl⟩) hfst
  · intro st
    exact ⟨rfl, rfl⟩

/-- C5 witness -/
theorem amqp_c5_witness :
    (([((0 : Nat), true), (1, false)] : List (Nat × Bool)).map Prod.fst).Nodup :=
  (amqp_c5.2.2.1
    [PubEvent.publish, PubEvent.publish, PubEvent.confirm true true 1, PubEvent.connLost]
    { counter := 2, table := [], nextH := 2 } [(0, true), (1, false)] [(1, 0), (2, 1)]
    rfl).1

end Twoost
